import Mathlib

/-!
# EncryptPad: the decryption state handlers

A shallow embedding of `back_end_src/decryption_state_handlers.cpp`: the
admission predicates (`*_CanEnter`) and actions (`*_OnEnter`) of the states of
the streaming decryption state machine, over an explicit decryption context.

* Bytes are natural numbers (a `std::vector<uint8_t>` is a `List Nat`), and a
  `std::string` is the list of its bytes.
* Undefined behaviour and failed assertions of the C++ code (an `assert`, a
  read past the end of a vector, a dereference of an empty `unique_ptr`) are
  faults: the handlers return `Except Fault _`.
* The collaborators that the handlers call but that live in other files
  (the input stream, `MessageReader`, `ParseWad`, `LoadKeyFromFile`,
  `DecryptKeyFileContent`) are parameters, bundled in `Collaborators`.
-/

namespace EncryptPad

variable {σ : Type}

/-- A byte buffer, `std::vector<uint8_t>` or `std::string`. -/
abbrev Bytes := List Nat

/-- The envelope formats of `Format`, the seven variants the handlers switch on. -/
inductive Format where
  | Unknown
  | Empty
  | GPG
  | GPGByKeyFile
  | GPGOrNestedWad
  | WAD
  | NestedWAD
  deriving DecidableEq, Repr

/-- Modelled from the spec: the result codes of `PacketResult` (its declaration is in the
message library). The four codes the handlers name, and `Other n` for every
further error code the collaborators can surface. -/
inductive PacketResult where
  | Success
  | KeyFileNotSpecified
  | InvalidKeyFilePassphrase
  | InvalidOrIncompleteWadFile
  | Other (code : Nat)
  deriving DecidableEq, Repr

/-- What stops a handler in C++ without a defined result. -/
inductive Fault where
  | assertFailed
  | outOfBounds
  | nullDeref
  deriving DecidableEq, Repr

/-- One call made on a `MessageReader`: `Finish` or `Update`, the bytes handed
in, the bytes the buffer held afterwards and the `EmsgException` result when
the call threw. -/
structure ReaderCall where
  isFinish : Bool
  given : Bytes
  produced : Bytes
  error : Option PacketResult
  deriving DecidableEq, Repr

/-- Modelled from the spec: a `DecryptionSession` (declared in the state machine header),
built either from a key service and a passphrase or empty, with the
passphrase it owns once a key file is loaded. The `MessageReader` it owns is
represented by the calls made on it so far, oldest first: a deterministic
reader is a function of that history. -/
structure DecryptionSession where
  key_service : Option Nat
  passphrase : Option Bytes
  own_passphrase : Bytes
  reader : List ReaderCall
  deriving DecidableEq, Repr

/-- The fields of `PacketMetadata` the handlers use. -/
structure PacketMetadata where
  key_file : Bytes
  key_only : Bool
  deriving DecidableEq, Repr

/-- The fields of `EncryptParams` the handlers use; the two libcurl strings are
optional pointers in the source. -/
structure EncryptParams where
  key_service : Nat
  passphrase : Bytes
  libcurl_path : Option Bytes
  libcurl_parameters : Option Bytes
  key_file_encrypt_params : Bytes
  deriving DecidableEq, Repr

/-- What a `MessageReader` call leaves behind: the buffer contents and, when
it threw an `EmsgException`, the result carried by the exception. -/
structure ReaderOutcome where
  produced : Bytes
  error : Option PacketResult
  deriving DecidableEq, Repr

/-- The out-parameters and return value of `ParseWad`. -/
structure WadHeader where
  result : PacketResult
  key_file : Bytes
  payload_offset : Nat
  payload_size : Nat
  deriving DecidableEq, Repr

/-- The code the handlers call and that is defined elsewhere, over an input
stream with state `σ`. `Read s n` returns the bytes stored in the destination
(their number is the returned count) and the stream afterwards. -/
structure Collaborators (σ : Type) where
  GetCount : σ → Nat
  Read : σ → Nat → Bytes × σ
  IsEOF : σ → Bool
  Update : DecryptionSession → Bytes → ReaderOutcome
  Finish : DecryptionSession → Bytes → ReaderOutcome
  ParseWad : Bytes → WadHeader
  LoadKeyFromFile : Bytes → Bytes → Bytes → PacketResult × Bytes
  DecryptKeyFileContent : Bytes → Bytes → Bool × Bytes

/-- Modelled from the spec: the `DecryptionContext` (declared in the state machine header),
with the fields of the data model. `output` is what has been written to the sink. -/
structure DecryptionContext (σ : Type) where
  input : σ
  output : Bytes
  buffer : Bytes
  pending_buffer : Bytes
  format : Format
  filter_count : Nat
  passphrase_session : Option DecryptionSession
  key_file_session : Option DecryptionSession
  wad_head_finished : Bool
  metadata : PacketMetadata
  encrypt_params : EncryptParams
  result : PacketResult
  failed : Bool

/-! ## The handlers -/

/-- Source `ReadIn_CanEnter`. -/
def ReadIn_CanEnter (c : DecryptionContext σ) : Bool :=
  c.buffer.length == 0

/-- Source `ReadIn_OnEnter`, with `kBufferSize = 16`. -/
def ReadIn_OnEnter (E : Collaborators σ) (c : DecryptionContext σ) : DecryptionContext σ :=
  let size := min 16 (E.GetCount c.input)
  let r := E.Read c.input size
  { c with buffer := r.1, input := r.2, filter_count := 0 }

/-- Source `End_CanEnter`. -/
def End_CanEnter (E : Collaborators σ) (c : DecryptionContext σ) : Bool :=
  E.IsEOF c.input && c.buffer.isEmpty && c.pending_buffer.isEmpty

/-- Source `End_OnEnter`. -/
def End_OnEnter (c : DecryptionContext σ) : DecryptionContext σ :=
  { c with result := PacketResult.Success }

/-- Source `ParseFormat_CanEnter`. -/
def ParseFormat_CanEnter (c : DecryptionContext σ) : Bool :=
  match c.format with
  | Format.Unknown => decide (c.buffer.length > 0) || decide (c.pending_buffer.length > 0)
  | Format.GPGOrNestedWad =>
    if c.filter_count != 1 then false
    else decide (c.buffer.length > 0) || decide (c.pending_buffer.length > 0)
  | _ => false

/-- The bytes of `"IWAD"`. -/
def markerIWAD : Bytes := [0x49, 0x57, 0x41, 0x44]

/-- The bytes of `"PWAD"`. -/
def markerPWAD : Bytes := [0x50, 0x57, 0x41, 0x44]

/-- The test `b & 0x80 && b != 0xEF` of `ParseFormat_OnEnter`. -/
def isPacketTag (b : Nat) : Bool :=
  (b &&& 0x80 != 0) && (b != 0xEF)

/-- Source `ParseFormat_OnEnter`. -/
def ParseFormat_OnEnter (E : Collaborators σ) (c : DecryptionContext σ) :
    Except Fault (DecryptionContext σ) :=
  let required_bytes := if c.filter_count == 1 then 4 else 1
  let c1 := { c with pending_buffer := c.pending_buffer ++ c.buffer, buffer := [] }
  if c1.pending_buffer.length < required_bytes && !E.IsEOF c1.input then
    Except.ok c1
  else if c1.filter_count == 0 then
    match c1.pending_buffer with
    | [] => Except.error Fault.outOfBounds
    | b :: _ =>
      let fmt :=
        if isPacketTag b then
          (if c1.metadata.key_only then Format.GPGByKeyFile else Format.GPGOrNestedWad)
        else Format.WAD
      Except.ok { c1 with format := fmt, buffer := c1.pending_buffer,
                          pending_buffer := c1.buffer }
  else if c1.filter_count == 1 then
    let marker : Bytes :=
      if c1.pending_buffer.length ≥ 4 then c1.pending_buffer.take 4 else []
    let fmt :=
      if marker = markerIWAD ∨ marker = markerPWAD then Format.NestedWAD else Format.GPG
    Except.ok { c1 with format := fmt, buffer := c1.pending_buffer,
                        pending_buffer := c1.buffer }
  else
    Except.error Fault.assertFailed

/-- Source `GPG_CanEnter`; the `assert(c.PassphraseSession())` of the
`NestedWAD` case is a fault when it fails. -/
def GPG_CanEnter (c : DecryptionContext σ) : Except Fault Bool :=
  if c.filter_count > 1 then Except.ok false
  else
    let tail : Except Fault Bool :=
      if c.buffer.length == 0 then Except.ok false else Except.ok true
    match c.format with
    | Format.Empty => Except.ok false
    | Format.Unknown => Except.ok false
    | Format.GPG | Format.GPGOrNestedWad =>
      if c.passphrase_session.isNone then Except.ok false
      else if c.filter_count == 1 then Except.ok false
      else tail
    | Format.GPGByKeyFile =>
      if c.key_file_session.isNone then Except.ok false
      else if c.filter_count == 1 then Except.ok false
      else tail
    | Format.WAD =>
      if !c.wad_head_finished then Except.ok false
      else if c.key_file_session.isNone then Except.ok false
      else if c.filter_count == 1 then Except.ok false
      else tail
    | Format.NestedWAD =>
      if c.passphrase_session.isNone then Except.error Fault.assertFailed
      else if c.filter_count == 1 && !c.wad_head_finished then Except.ok false
      else if c.filter_count == 1 && c.key_file_session.isNone then Except.ok false
      else tail

/-- Which session owns the reader `GPG_OnEnter` uses. -/
inductive ReaderChoice where
  | passphrase
  | keyFile
  deriving DecidableEq, Repr

/-- The `switch` of `GPG_OnEnter` that selects the reader: the session whose
reader is taken, with the `assert(c.GetFilterCount() == 0)` of the `GPG` and
`GPGOrNestedWad` cases. -/
def GPG_selectReader (c : DecryptionContext σ) : Except Fault ReaderChoice :=
  match c.format with
  | Format.GPG | Format.GPGOrNestedWad =>
    if c.filter_count == 0 then Except.ok ReaderChoice.passphrase
    else Except.error Fault.assertFailed
  | Format.NestedWAD =>
    if c.filter_count == 0 then Except.ok ReaderChoice.passphrase
    else Except.ok ReaderChoice.keyFile
  | _ => Except.ok ReaderChoice.keyFile

/-- The `try` block of `GPG_OnEnter` on a session: `Finish` at end of input,
`Update` otherwise. -/
def readerCall (E : Collaborators σ) (c : DecryptionContext σ) (s : DecryptionSession) :
    ReaderOutcome :=
  if E.IsEOF c.input then E.Finish s c.buffer else E.Update s c.buffer

/-- The session after a reader call: the call is added to the reader's history. -/
def recordCall (E : Collaborators σ) (c : DecryptionContext σ) (s : DecryptionSession) :
    DecryptionSession :=
  let o := readerCall E c s
  { s with reader := s.reader ++ [⟨E.IsEOF c.input, c.buffer, o.produced, o.error⟩] }

/-- The end of `GPG_OnEnter`, after the reader call with outcome `o`: the
`catch` block when the call threw, then the two unconditional setters. -/
def GPG_afterCall (c : DecryptionContext σ) (o : ReaderOutcome) : DecryptionContext σ :=
  let c1 := { c with buffer := o.produced }
  let c2 :=
    match o.error with
    | some e => { c1 with result := e, failed := true }
    | none => c1
  let c3 := { c2 with filter_count := c2.filter_count + 1 }
  { c3 with result := PacketResult.Success }

/-- Source `GPG_OnEnter`. -/
def GPG_OnEnter (E : Collaborators σ) (c : DecryptionContext σ) :
    Except Fault (DecryptionContext σ) :=
  match GPG_selectReader c with
  | Except.error f => Except.error f
  | Except.ok ReaderChoice.passphrase =>
    match c.passphrase_session with
    | none => Except.error Fault.nullDeref
    | some s =>
      Except.ok (GPG_afterCall { c with passphrase_session := some (recordCall E c s) }
        (readerCall E c s))
  | Except.ok ReaderChoice.keyFile =>
    match c.key_file_session with
    | none => Except.error Fault.nullDeref
    | some s =>
      Except.ok (GPG_afterCall { c with key_file_session := some (recordCall E c s) }
        (readerCall E c s))

/-- Source `SetPwdKey_CanEnter`. -/
def SetPwdKey_CanEnter (c : DecryptionContext σ) : Bool :=
  match c.format with
  | Format.GPG | Format.GPGOrNestedWad => c.passphrase_session.isNone
  | _ => false

/-- Source `SetPwdKey_OnEnter`: a new session built from the key service and
the passphrase of the parameters, its reader not yet called. -/
def SetPwdKey_OnEnter (c : DecryptionContext σ) : DecryptionContext σ :=
  let s : DecryptionSession :=
    ⟨some c.encrypt_params.key_service, some c.encrypt_params.passphrase, [], []⟩
  { c with passphrase_session := some s }

/-- Source `WriteOut_CanEnter`. -/
def WriteOut_CanEnter (c : DecryptionContext σ) : Bool :=
  if c.buffer.length == 0 then false
  else
    match c.format with
    | Format.Empty | Format.Unknown | Format.GPGOrNestedWad => false
    | Format.GPGByKeyFile | Format.GPG | Format.WAD =>
      if c.filter_count != 1 then false else true
    | Format.NestedWAD =>
      if c.filter_count != 2 then false else true

/-- Source `WriteOut_OnEnter`. -/
def WriteOut_OnEnter (c : DecryptionContext σ) : DecryptionContext σ :=
  { c with output := c.output ++ c.buffer, buffer := [] }

/-- Source `Fail_OnEnter`: it does nothing. -/
def Fail_OnEnter (c : DecryptionContext σ) : DecryptionContext σ := c

/-- Source `ReadKeyFile_CanEnter`. -/
def ReadKeyFile_CanEnter (c : DecryptionContext σ) : Bool :=
  if c.key_file_session.isSome then false
  else
    match c.format with
    | Format.GPGByKeyFile => true
    | Format.WAD | Format.NestedWAD =>
      if !c.wad_head_finished then false else true
    | _ => false

/-- Source `ReadKeyFile_OnEnter`. -/
def ReadKeyFile_OnEnter (E : Collaborators σ) (c : DecryptionContext σ) :
    DecryptionContext σ :=
  if c.metadata.key_file.isEmpty then
    { c with result := PacketResult.KeyFileNotSpecified, failed := true }
  else
    let loaded := E.LoadKeyFromFile c.metadata.key_file
      (c.encrypt_params.libcurl_path.getD [])
      (c.encrypt_params.libcurl_parameters.getD [])
    let c1 := { c with key_file_session := some ⟨none, none, loaded.2, []⟩ }
    if loaded.1 ≠ PacketResult.Success then
      { c1 with result := loaded.1, failed := true }
    else
      let dec := E.DecryptKeyFileContent loaded.2 c.encrypt_params.key_file_encrypt_params
      let c2 := { c1 with key_file_session := some ⟨none, none, dec.2, []⟩ }
      if !dec.1 then
        { c2 with result := PacketResult.InvalidKeyFilePassphrase, failed := true }
      else
        { c2 with result := PacketResult.Success }

/-- Source `WADHead_CanEnter`. -/
def WADHead_CanEnter (c : DecryptionContext σ) : Bool :=
  if c.wad_head_finished then false
  else if c.buffer.length == 0 && c.pending_buffer.length == 0 then false
  else
    match c.format with
    | Format.WAD | Format.NestedWAD => true
    | _ => false

/-- Source `WADHead_OnEnter`. Erasing `payload_offset` bytes from a shorter
buffer is out of bounds. -/
def WADHead_OnEnter (E : Collaborators σ) (c : DecryptionContext σ) :
    Except Fault (DecryptionContext σ) :=
  let c1 := { c with pending_buffer := c.pending_buffer ++ c.buffer, buffer := [] }
  let h := E.ParseWad c1.pending_buffer
  match h.result with
  | PacketResult.Success =>
    let key_file := if c1.metadata.key_file.isEmpty then h.key_file else c1.metadata.key_file
    let swapped := c1.pending_buffer
    if h.payload_offset > swapped.length then Except.error Fault.outOfBounds
    else
      let erased := swapped.drop h.payload_offset
      let trimmed :=
        if h.payload_size != 0 && decide (h.payload_size < erased.length) then
          erased.take h.payload_size
        else erased
      Except.ok { c1 with
        metadata := { c1.metadata with key_file := key_file }
        buffer := trimmed
        pending_buffer := c1.buffer
        wad_head_finished := true
        result := PacketResult.Success }
  | PacketResult.InvalidOrIncompleteWadFile =>
    if E.IsEOF c1.input then
      Except.ok { c1 with result := h.result, failed := true }
    else Except.ok c1
  | _ => Except.ok { c1 with result := h.result, failed := true }

/-! ## The dispatcher -/

/-- The states of the decryption state machine. -/
inductive StateId where
  | Fail
  | End
  | WriteOut
  | Decrypt
  | SetPassphraseSession
  | ReadKeyFile
  | WADHead
  | ParseFormat
  | ReadIn
  deriving DecidableEq, Repr

/-- Modelled from the spec: the admission predicate of the `Fail` state, `failed = true`
(the source file has only `Fail_OnEnter`). -/
def Fail_CanEnter (c : DecryptionContext σ) : Bool :=
  c.failed

/-- The admission predicate of each state. -/
def CanEnter (E : Collaborators σ) (s : StateId) (c : DecryptionContext σ) :
    Except Fault Bool :=
  match s with
  | StateId.Fail => Except.ok (Fail_CanEnter c)
  | StateId.End => Except.ok (End_CanEnter E c)
  | StateId.WriteOut => Except.ok (WriteOut_CanEnter c)
  | StateId.Decrypt => GPG_CanEnter c
  | StateId.SetPassphraseSession => Except.ok (SetPwdKey_CanEnter c)
  | StateId.ReadKeyFile => Except.ok (ReadKeyFile_CanEnter c)
  | StateId.WADHead => Except.ok (WADHead_CanEnter c)
  | StateId.ParseFormat => Except.ok (ParseFormat_CanEnter c)
  | StateId.ReadIn => Except.ok (ReadIn_CanEnter c)

/-- The action of each state. -/
def OnEnter (E : Collaborators σ) (s : StateId) (c : DecryptionContext σ) :
    Except Fault (DecryptionContext σ) :=
  match s with
  | StateId.Fail => Except.ok (Fail_OnEnter c)
  | StateId.End => Except.ok (End_OnEnter c)
  | StateId.WriteOut => Except.ok (WriteOut_OnEnter c)
  | StateId.Decrypt => GPG_OnEnter E c
  | StateId.SetPassphraseSession => Except.ok (SetPwdKey_OnEnter c)
  | StateId.ReadKeyFile => Except.ok (ReadKeyFile_OnEnter E c)
  | StateId.WADHead => WADHead_OnEnter E c
  | StateId.ParseFormat => ParseFormat_OnEnter E c
  | StateId.ReadIn => Except.ok (ReadIn_OnEnter E c)

/-- Modelled from the spec: the priority order of the states in the dispatcher (the state
machine that owns the handlers is in another file). -/
def stateOrder : List StateId :=
  [StateId.Fail, StateId.End, StateId.WriteOut, StateId.Decrypt,
   StateId.SetPassphraseSession, StateId.ReadKeyFile, StateId.WADHead,
   StateId.ParseFormat, StateId.ReadIn]

/-- Modelled from the spec: the scan of the dispatcher over a list of states, top to bottom:
the first state whose admission predicate is true. -/
def firstMatch (E : Collaborators σ) (c : DecryptionContext σ) :
    List StateId → Except Fault (Option StateId)
  | [] => Except.ok none
  | s :: rest =>
    match CanEnter E s c with
    | Except.error f => Except.error f
    | Except.ok true => Except.ok (some s)
    | Except.ok false => firstMatch E c rest

/-- Modelled from the spec: the state the dispatcher enters next. -/
def nextState (E : Collaborators σ) (c : DecryptionContext σ) : Except Fault (Option StateId) :=
  firstMatch E c stateOrder

/-- How a run of the dispatcher stands after some steps. -/
inductive RunResult (σ : Type) where
  | terminal (s : StateId) (c : DecryptionContext σ)
  | wedged (c : DecryptionContext σ)
  | fault (f : Fault)
  | running (c : DecryptionContext σ)

/-- Modelled from the spec: the dispatcher, for at most `fuel` steps: each step enters the
first admissible state and runs its action; `End` and `Fail` are terminal, and
the run is wedged when no state is admissible. -/
def run (E : Collaborators σ) : Nat → DecryptionContext σ → RunResult σ
  | 0, c => RunResult.running c
  | fuel + 1, c =>
    match nextState E c with
    | Except.error f => RunResult.fault f
    | Except.ok none => RunResult.wedged c
    | Except.ok (some s) =>
      match OnEnter E s c with
      | Except.error f => RunResult.fault f
      | Except.ok c1 =>
        if s = StateId.End ∨ s = StateId.Fail then RunResult.terminal s c1
        else run E fuel c1

/-- The states entered by the first `fuel` steps of the dispatcher, in order. -/
def trace (E : Collaborators σ) : Nat → DecryptionContext σ → List StateId
  | 0, _ => []
  | fuel + 1, c =>
    match nextState E c with
    | Except.ok (some s) =>
      match OnEnter E s c with
      | Except.ok c1 =>
        if s = StateId.End ∨ s = StateId.Fail then [s] else s :: trace E fuel c1
      | Except.error _ => [s]
    | _ => []

/-- The context at start of run, as the lifecycle describes it: empty buffers,
nothing written, no sessions, format unknown, no filter pass, no WAD head, not
failed. The input, the metadata, the parameters and the result are free. -/
def IsInitial (c : DecryptionContext σ) : Prop :=
  c.format = Format.Unknown ∧ c.filter_count = 0 ∧ c.buffer = [] ∧ c.pending_buffer = [] ∧
  c.output = [] ∧ c.passphrase_session = none ∧ c.key_file_session = none ∧
  c.wad_head_finished = false ∧ c.failed = false

/-- The initial context over an input, metadata and parameters. -/
def initialContext (inp : σ) (md : PacketMetadata) (p : EncryptParams) : DecryptionContext σ :=
  { input := inp, output := [], buffer := [], pending_buffer := [],
    format := Format.Unknown, filter_count := 0, passphrase_session := none,
    key_file_session := none, wad_head_finished := false, metadata := md,
    encrypt_params := p, result := PacketResult.Success, failed := false }

/-- One handler run in a context where its admission predicate holds. -/
def Step (E : Collaborators σ) (c c1 : DecryptionContext σ) : Prop :=
  ∃ s, CanEnter E s c = Except.ok true ∧ OnEnter E s c = Except.ok c1

/-- The contexts reachable from `c0` by running admissible handlers. -/
inductive Reachable (E : Collaborators σ) (c0 : DecryptionContext σ) :
    DecryptionContext σ → Prop where
  | start : Reachable E c0 c0
  | next {c c1 : DecryptionContext σ} : Reachable E c0 c → Step E c c1 → Reachable E c0 c1

/-! ## Sample collaborators, inputs and contexts -/

/-- Modelled from the spec: a memory input stream, the bytes not yet consumed: `is_eof` is
true exactly when all bytes are consumed. -/
def IsMemoryInput (E : Collaborators Bytes) : Prop :=
  (∀ s, E.GetCount s = s.length) ∧ (∀ s n, E.Read s n = (s.take n, s.drop n)) ∧
  (∀ s, E.IsEOF s = s.isEmpty)

/-- A sample reader: it throws on a buffer that starts with `0xFF`; the reader
of a passphrase session strips the first byte of each buffer and the reader of
a key-file session returns the buffer as it is. -/
def sampleReader (s : DecryptionSession) (buf : Bytes) : ReaderOutcome :=
  if buf.head? = some 0xFF then ⟨[], some (PacketResult.Other 7)⟩
  else if s.passphrase.isSome then ⟨buf.drop 1, none⟩
  else ⟨buf, none⟩

/-- A sample WAD parser: a container is a marker, a byte giving the payload
size, three more header bytes, then the payload; the key file is `k`. -/
def sampleParseWad (buf : Bytes) : WadHeader :=
  if buf.length < 8 then ⟨PacketResult.InvalidOrIncompleteWadFile, [], 0, 0⟩
  else if buf.take 4 = markerIWAD ∨ buf.take 4 = markerPWAD then
    ⟨PacketResult.Success, [0x6B], 8, buf.getD 4 0⟩
  else ⟨PacketResult.Other 3, [], 0, 0⟩

/-- Sample collaborators over a memory input stream. -/
def sampleCollaborators : Collaborators Bytes :=
  { GetCount := fun s => s.length
    Read := fun s n => (s.take n, s.drop n)
    IsEOF := fun s => s.isEmpty
    Update := sampleReader
    Finish := sampleReader
    ParseWad := sampleParseWad
    LoadKeyFromFile := fun _ _ _ => (PacketResult.Success, [1, 2, 3])
    DecryptKeyFileContent := fun k _ => (true, k) }

/-- Sample parameters. -/
def sampleParams : EncryptParams :=
  { key_service := 0, passphrase := [0x70], libcurl_path := none,
    libcurl_parameters := none, key_file_encrypt_params := [] }

/-- Whether staged bytes start with the four bytes of `IWAD` or `PWAD`. -/
def startsWithWadMarker (s : Bytes) : Prop :=
  4 ≤ s.length ∧ (s.take 4 = markerIWAD ∨ s.take 4 = markerPWAD)

instance (s : Bytes) : Decidable (startsWithWadMarker s) := by
  unfold startsWithWadMarker; infer_instance

/-- A context in format `WAD` holding a sample container whose header asks
for a payload of two bytes out of the four that follow it. -/
def sampleWadContext : DecryptionContext Bytes :=
  { initialContext [] ⟨[], false⟩ sampleParams with
    format := Format.WAD, buffer := [0x50, 0x57, 0x41, 0x44, 2, 0, 0, 0, 9, 8, 7, 6] }

/-- The passphrase session of the sample runs, before any reader call. -/
def samplePassphraseSession : DecryptionSession :=
  ⟨some 0, some [0x70], [], []⟩

/-- The context the dispatcher reaches on the input `FF 01 02` after `ReadIn`,
`ParseFormat` and `SetPassphraseSession`. -/
def sampleErrorContext : DecryptionContext Bytes :=
  { initialContext [] ⟨[], false⟩ sampleParams with
    format := Format.GPGOrNestedWad, buffer := [0xFF, 1, 2],
    passphrase_session := some samplePassphraseSession }

/-- The first two statements of `ParseFormat_OnEnter` and `WADHead_OnEnter`:
the buffer is appended to the pending buffer and cleared. -/
def stage (c : DecryptionContext σ) : DecryptionContext σ :=
  { c with pending_buffer := c.pending_buffer ++ c.buffer, buffer := [] }

/-- Sample collaborators whose reader yields two bytes per `Update`. -/
def shortReaderCollaborators : Collaborators Bytes :=
  { sampleCollaborators with Update := fun _ buf => ⟨buf.take 2, none⟩ }

/-- An input of seventeen bytes that starts with the packet tag `0xC3`. -/
def sampleTagInput : Bytes :=
  [0xC3, 1, 2, 3, 4, 5, 6, 7, 8, 9, 10, 11, 12, 13, 14, 15, 16]

/-- The context reached on `sampleTagInput` after `ReadIn`, `ParseFormat`,
`SetPassphraseSession` and a `Decrypt` whose `Update` yields two bytes. -/
def deferParseFormatContext : DecryptionContext Bytes :=
  { initialContext [16] ⟨[], false⟩ sampleParams with
    format := Format.GPGOrNestedWad, filter_count := 1, buffer := [0xC3, 1],
    passphrase_session := some
      { samplePassphraseSession with
        reader := [⟨false, [0xC3, 1, 2, 3, 4, 5, 6, 7, 8, 9, 10, 11, 12, 13, 14, 15],
          [0xC3, 1], none⟩] } }

/-- The number of plaintext bytes the reader of a session has produced over
all its `Update` and `Finish` calls; none without a session. -/
def produced (s : Option DecryptionSession) : Nat :=
  match s with
  | none => 0
  | some d => (d.reader.map (fun k => k.produced.length)).sum

/-- The plaintext bytes produced by the readers of both sessions. -/
def totalProduced (c : DecryptionContext σ) : Nat :=
  produced c.passphrase_session + produced c.key_file_session

/-- The number of `Finish` calls the reader of a session has received. -/
def finishCalls (s : Option DecryptionSession) : Nat :=
  match s with
  | none => 0
  | some d => (d.reader.filter (fun k => k.isFinish)).length

/-- The state a terminated run ended in. -/
def RunResult.finalState {σ : Type} : RunResult σ → Option StateId
  | RunResult.terminal s _ => some s
  | _ => none

/-- The context a run stands in, when it has one. -/
def RunResult.context {σ : Type} : RunResult σ → Option (DecryptionContext σ)
  | RunResult.terminal _ c => some c
  | RunResult.wedged c => some c
  | RunResult.running c => some c
  | RunResult.fault _ => none

/-- An input of eleven bytes: the tag `0xC3`, then a container `IWAD` with an
eight-byte header and the payload `09 09`. -/
def sampleNestedInput : Bytes :=
  [0xC3, 0x49, 0x57, 0x41, 0x44, 0, 0, 0, 0, 9, 9]

/-- The account of the bytes written, per format: what has been written
(`w`), plus the plaintext still in the pending buffer (`p`) and in the buffer
(`b`), is what the reader of the last pass has produced (`pp` for the
passphrase reader, `kp` for the key-file reader), for the filter count `fc` and
the WAD head flag `fin`. -/
def WrittenAccount (fmt : Format) (pp kp w p b fc : Nat) (fin : Bool) : Prop :=
  match fmt with
  | Format.Unknown => pp = 0 ∧ kp = 0 ∧ w = 0 ∧ fc = 0
  | Format.Empty => pp = 0 ∧ kp = 0 ∧ w = 0
  | Format.GPGOrNestedWad => kp = 0 ∧ w = 0 ∧ pp = p + (if fc = 1 then b else 0)
  | Format.GPG => kp = 0 ∧ w + p + (if fc = 1 then b else 0) = pp
  | Format.GPGByKeyFile => pp = 0 ∧ w + (if fc = 1 then b else 0) = kp
  | Format.WAD => pp = 0 ∧ w + (if fc = 1 then b else 0) = kp ∧ (fin = false → fc = 0)
  | Format.NestedWAD => w + (if fc = 2 then b else 0) = kp ∧ (fin = false → fc ≠ 2)

/-- The account of the bytes written holds in a context that has not failed. -/
def WrittenInv (c : DecryptionContext σ) : Prop :=
  c.failed = false →
    WrittenAccount c.format (produced c.passphrase_session) (produced c.key_file_session)
      c.output.length c.pending_buffer.length c.buffer.length c.filter_count
      c.wad_head_finished

/-- An input of seventeen bytes: the tag `0xC3`, a container `IWAD` with an
eight-byte header and seven payload bytes, then one more byte, which is read
as a second chunk at end of input. -/
def sampleUnfinishedInput : Bytes :=
  [0xC3, 0x49, 0x57, 0x41, 0x44, 0, 0, 0, 0, 1, 2, 3, 4, 5, 6, 7, 8]

/-- A context in format `GPGByKeyFile` with the key file `k` named and a
buffer to decrypt. -/
def sampleKeyFileContext : DecryptionContext Bytes :=
  { initialContext [] ⟨[0x6B], true⟩ sampleParams with
    format := Format.GPGByKeyFile, buffer := [0xC3, 1, 2] }

/-! ## Sessions along a run -/

/-- A session slot keeps its session: a session that is present stays present,
built from the same key service and passphrases, with the calls made on its
reader so far followed by any new ones. -/
def SessionKept (s s1 : Option DecryptionSession) : Prop :=
  ∀ d, s = some d →
    ∃ d1, s1 = some d1 ∧ d1.key_service = d.key_service ∧ d1.passphrase = d.passphrase ∧
      d1.own_passphrase = d.own_passphrase ∧ d.reader <+: d1.reader

/-- The number of times a session is constructed along the successive values
of a session slot: the steps from absent to present. -/
def constructions : Option DecryptionSession → List (Option DecryptionSession) → Nat
  | _, [] => 0
  | s, s1 :: rest => (if s.isNone && s1.isSome then 1 else 0) + constructions s1 rest

/-- The steps the dispatcher completes in at most `fuel` steps: each state
entered, with the context its action left. -/
def history (E : Collaborators σ) : Nat → DecryptionContext σ →
    List (StateId × DecryptionContext σ)
  | 0, _ => []
  | fuel + 1, c =>
    match nextState E c with
    | Except.ok (some s) =>
      match OnEnter E s c with
      | Except.ok c1 =>
        if s = StateId.End ∨ s = StateId.Fail then [(s, c1)]
        else (s, c1) :: history E fuel c1
      | Except.error _ => []
    | _ => []

/-- An input of seven bytes: a container `PWAD` cut short. -/
def sampleTruncatedWadInput : Bytes :=
  [0x50, 0x57, 0x41, 0x44, 0, 0, 0]

/-- What the reachable contexts have in common, beside the bound on the filter
count: the format is never `Empty`, no filter pass has run while the format is
`Unknown`, and a passphrase session is present in format `GPGOrNestedWad` once
a filter pass has run and in format `NestedWAD`. -/
def SafeInv (c : DecryptionContext σ) : Prop :=
  c.format ≠ Format.Empty ∧
  (c.format = Format.Unknown → c.filter_count = 0) ∧
  (c.format = Format.GPGOrNestedWad → c.filter_count ≠ 0 →
    c.passphrase_session.isSome = true) ∧
  (c.format = Format.NestedWAD → c.passphrase_session.isSome = true)

/-- A context where staged bytes may wait: `ParseFormat` has its second stage
still to decide (format `GPGOrNestedWad`), or `WADHead` has not succeeded
(format `WAD` or `NestedWAD` with the WAD head unfinished). -/
def StillWaiting (c : DecryptionContext σ) : Prop :=
  c.format = Format.GPGOrNestedWad ∨
  ((c.format = Format.WAD ∨ c.format = Format.NestedWAD) ∧ c.wad_head_finished = false)

/-! ## The handlers, one at a time -/

/-- The packet-tag test is false on every byte below `0x80` and on `0xEF`. -/
theorem isPacketTag_false_of_low (b : Nat) (h : b < 0x80 ∨ b = 0xEF) : isPacketTag b = false := by
  rcases h with h | h
  · interval_cases b <;> decide
  · subst h; decide

/-- On a byte, the packet-tag test is true exactly from `0x80` up, `0xEF` apart. -/
theorem isPacketTag_iff (b : Nat) (hb : b < 256) :
    isPacketTag b = true ↔ (0x80 ≤ b ∧ b ≠ 0xEF) := by
  interval_cases b <;> decide

/-- The packet-tag test, as the source writes it. -/
theorem isPacketTag_eq_true (b : Nat) : isPacketTag b = true ↔ (b &&& 0x80 ≠ 0 ∧ b ≠ 0xEF) := by
  simp [isPacketTag]

/-- The first stage of `ParseFormat_OnEnter`, computed: with no filter pass yet
and a first staged byte, it decides. -/
theorem ParseFormat_OnEnter_first (E : Collaborators σ) (c : DecryptionContext σ)
    (b : Nat) (rest : Bytes) (hc : c.filter_count = 0)
    (hb : c.pending_buffer ++ c.buffer = b :: rest) :
    ParseFormat_OnEnter E c = Except.ok
      { c with
        format := if isPacketTag b then
            (if c.metadata.key_only then Format.GPGByKeyFile else Format.GPGOrNestedWad)
          else Format.WAD
        buffer := b :: rest
        pending_buffer := [] } := by
  simp [ParseFormat_OnEnter, hc, hb]

/-- C7: with format `Unknown`, no filter pass yet and a first staged byte `b`,
`ParseFormat` decides and sets the format from `b`: `GPGByKeyFile` when `b` has
its high bit set, is not `0xEF` and `key_only` holds, `GPGOrNestedWad` for such
a byte without `key_only`, and `WAD` for every other byte, which on bytes means
`b < 0x80` or `b = 0xEF`. -/
theorem ParseFormat_first_stage (E : Collaborators σ) (c : DecryptionContext σ)
    (b : Nat) (rest : Bytes) (_hf : c.format = Format.Unknown) (hc : c.filter_count = 0)
    (hb : c.pending_buffer ++ c.buffer = b :: rest) :
    ∃ c1, ParseFormat_OnEnter E c = Except.ok c1 ∧
      ((b &&& 0x80 ≠ 0 ∧ b ≠ 0xEF) → c.metadata.key_only = true →
        c1.format = Format.GPGByKeyFile) ∧
      ((b &&& 0x80 ≠ 0 ∧ b ≠ 0xEF) → c.metadata.key_only = false →
        c1.format = Format.GPGOrNestedWad) ∧
      (¬ (b &&& 0x80 ≠ 0 ∧ b ≠ 0xEF) → c1.format = Format.WAD) ∧
      ((b < 0x80 ∨ b = 0xEF) → c1.format = Format.WAD) ∧
      (b < 256 → (¬ (b &&& 0x80 ≠ 0 ∧ b ≠ 0xEF) ↔ (b < 0x80 ∨ b = 0xEF))) := by
  have hlow : b < 256 → (¬ (b &&& 0x80 ≠ 0 ∧ b ≠ 0xEF) ↔ (b < 0x80 ∨ b = 0xEF)) := by
    intro h256
    rw [← isPacketTag_eq_true, isPacketTag_iff b h256]
    omega
  refine ⟨_, ParseFormat_OnEnter_first E c b rest hc hb, ?_, ?_, ?_, ?_, hlow⟩
  · intro ht hk
    simp [(isPacketTag_eq_true b).2 ht, hk]
  · intro ht hk
    simp [(isPacketTag_eq_true b).2 ht, hk]
  · intro ht
    have : isPacketTag b = false := by
      cases h : isPacketTag b
      · rfl
      · exact absurd ((isPacketTag_eq_true b).1 h) ht
    simp [this]
  · intro h
    simp [isPacketTag_false_of_low b h]

/-- The witness of `ParseFormat_first_stage`: a context whose buffer starts with
the tag byte `0xC3`. -/
theorem ParseFormat_first_stage_witness :
    ∃ c1, ParseFormat_OnEnter sampleCollaborators
        { initialContext [4, 5] ⟨[], true⟩ sampleParams with buffer := [0xC3, 1] } =
          Except.ok c1 ∧ c1.format = Format.GPGByKeyFile := by
  obtain ⟨c1, h1, h2, _⟩ := ParseFormat_first_stage sampleCollaborators
    { initialContext [4, 5] ⟨[], true⟩ sampleParams with buffer := [0xC3, 1] }
    0xC3 [1] rfl rfl rfl
  exact ⟨c1, h1, h2 (by decide) rfl⟩

/-- The second stage of `ParseFormat_OnEnter`, computed: after one filter pass,
with four staged bytes or at end of input, it decides. -/
theorem ParseFormat_OnEnter_second (E : Collaborators σ) (c : DecryptionContext σ)
    (hc : c.filter_count = 1)
    (hd : 4 ≤ (c.pending_buffer ++ c.buffer).length ∨ E.IsEOF c.input = true) :
    ParseFormat_OnEnter E c = Except.ok
      { c with
        format := if startsWithWadMarker (c.pending_buffer ++ c.buffer) then Format.NestedWAD
          else Format.GPG
        buffer := c.pending_buffer ++ c.buffer
        pending_buffer := [] } := by
  have hgo : ¬ (c.pending_buffer.length + c.buffer.length < 4 ∧ E.IsEOF c.input = false) := by
    rw [List.length_append] at hd
    rcases hd with h | h
    · intro h2; omega
    · simp [h]
  have hne1 : ¬ ([] : Bytes) = markerIWAD := by decide
  have hne2 : ¬ ([] : Bytes) = markerPWAD := by decide
  by_cases h4 : 4 ≤ c.pending_buffer.length + c.buffer.length
  · simp [ParseFormat_OnEnter, hc, hgo, startsWithWadMarker, h4]
  · simp [ParseFormat_OnEnter, hc, hgo, startsWithWadMarker, h4, hne1, hne2]

/-- C8: with format `GPGOrNestedWad` after one filter pass, when `ParseFormat`
decides (four staged bytes, or end of input), the format becomes `NestedWAD`
exactly when the staged bytes are at least four and start with `IWAD` or
`PWAD`, and `GPG` otherwise; with fewer than four staged bytes at end of input
it becomes `GPG`. -/
theorem ParseFormat_second_stage (E : Collaborators σ) (c : DecryptionContext σ)
    (_hf : c.format = Format.GPGOrNestedWad) (hc : c.filter_count = 1)
    (hd : 4 ≤ (c.pending_buffer ++ c.buffer).length ∨ E.IsEOF c.input = true) :
    ∃ c1, ParseFormat_OnEnter E c = Except.ok c1 ∧
      (c1.format = Format.NestedWAD ↔
        (4 ≤ (c.pending_buffer ++ c.buffer).length ∧
          ((c.pending_buffer ++ c.buffer).take 4 = markerIWAD ∨
           (c.pending_buffer ++ c.buffer).take 4 = markerPWAD))) ∧
      (c1.format = Format.GPG ↔
        ¬ (4 ≤ (c.pending_buffer ++ c.buffer).length ∧
          ((c.pending_buffer ++ c.buffer).take 4 = markerIWAD ∨
           (c.pending_buffer ++ c.buffer).take 4 = markerPWAD))) ∧
      ((c.pending_buffer ++ c.buffer).length < 4 → c1.format = Format.GPG) := by
  refine ⟨_, ParseFormat_OnEnter_second E c hc hd, ?_, ?_, ?_⟩
  · by_cases h : startsWithWadMarker (c.pending_buffer ++ c.buffer)
    · simp only [h, if_true, true_iff]; exact h
    · simp only [h, if_false]
      constructor
      · intro h2; cases h2
      · intro h2; exact absurd h2 h
  · by_cases h : startsWithWadMarker (c.pending_buffer ++ c.buffer)
    · simp only [h, if_true]
      constructor
      · intro h2; cases h2
      · intro h2; exact absurd h h2
    · simp only [h, if_false, true_iff]; exact h
  · intro hlt
    have h : ¬ startsWithWadMarker (c.pending_buffer ++ c.buffer) := fun h => by
      have := h.1; omega
    simp only [h, if_false]

/-- The witness of `ParseFormat_second_stage`: two staged bytes at end of input
give `GPG`. -/
theorem ParseFormat_second_stage_witness :
    ∃ c1, ParseFormat_OnEnter sampleCollaborators
        { initialContext [] ⟨[], false⟩ sampleParams with
          format := Format.GPGOrNestedWad, filter_count := 1, buffer := [0x49, 0x57] } =
          Except.ok c1 ∧ c1.format = Format.GPG := by
  obtain ⟨c1, h1, _, _, h4⟩ := ParseFormat_second_stage sampleCollaborators
    { initialContext [] ⟨[], false⟩ sampleParams with
      format := Format.GPGOrNestedWad, filter_count := 1, buffer := [0x49, 0x57] }
    rfl rfl (Or.inr rfl)
  exact ⟨c1, h1, h4 (by decide)⟩

/-- C9: when `ParseWad` succeeds on the staged bytes `s` with a payload offset
`o` within `s` and payload size `n`, `WADHead` leaves in the buffer `s` without
its first `o` bytes, cut to its first `n` bytes exactly when `0 < n < |s| - o`;
the pending buffer is empty and the WAD head is finished. -/
theorem WADHead_success_trim (E : Collaborators σ) (c : DecryptionContext σ)
    (hs : (E.ParseWad (c.pending_buffer ++ c.buffer)).result = PacketResult.Success)
    (ho : (E.ParseWad (c.pending_buffer ++ c.buffer)).payload_offset ≤
      (c.pending_buffer ++ c.buffer).length) :
    ∃ c1, WADHead_OnEnter E c = Except.ok c1 ∧
      c1.buffer =
        (if 0 < (E.ParseWad (c.pending_buffer ++ c.buffer)).payload_size ∧
            (E.ParseWad (c.pending_buffer ++ c.buffer)).payload_size <
              (c.pending_buffer ++ c.buffer).length -
                (E.ParseWad (c.pending_buffer ++ c.buffer)).payload_offset
         then ((c.pending_buffer ++ c.buffer).drop
                (E.ParseWad (c.pending_buffer ++ c.buffer)).payload_offset).take
                (E.ParseWad (c.pending_buffer ++ c.buffer)).payload_size
         else (c.pending_buffer ++ c.buffer).drop
                (E.ParseWad (c.pending_buffer ++ c.buffer)).payload_offset) ∧
      c1.pending_buffer = [] ∧ c1.wad_head_finished = true := by
  generalize hw : E.ParseWad (c.pending_buffer ++ c.buffer) = w at hs ho
  have ho2 : ¬ (w.payload_offset > (c.pending_buffer ++ c.buffer).length) := by omega
  have hpos : (0 < w.payload_size) ↔ ¬ w.payload_size = 0 := Nat.pos_iff_ne_zero
  simp only [WADHead_OnEnter, hw, hs, hpos, ho2, if_false]
  refine ⟨_, rfl, ?_, rfl, rfl⟩
  simp

/-- The witness of `WADHead_success_trim`: the sample container is cut to its
two payload bytes. -/
theorem WADHead_success_trim_witness :
    ∃ c1, WADHead_OnEnter sampleCollaborators sampleWadContext = Except.ok c1 ∧
      c1.buffer = [9, 8] ∧ c1.pending_buffer = [] ∧ c1.wad_head_finished = true := by
  obtain ⟨c1, h1, h2, h3, h4⟩ :=
    WADHead_success_trim sampleCollaborators sampleWadContext (by decide) (by decide)
  exact ⟨c1, h1, h2.trans (by decide), h3, h4⟩

/-- C10: the error handling of `WADHead`, in a context where it is admissible,
on the staged bytes `s`. If `ParseWad` reports `InvalidOrIncompleteWadFile`
while the input is not at its end, `failed` and `result` are unchanged, the WAD
head stays unfinished and the bytes stay staged (`pending_buffer = s`, `buffer`
empty). If it reports `InvalidOrIncompleteWadFile` at end of input, or any
other result `r` that is not `Success`, then `result = r`, `failed = true` and
the WAD head stays unfinished. -/
theorem WADHead_error_handling (E : Collaborators σ) (c : DecryptionContext σ)
    (hadm : WADHead_CanEnter c = true) :
    ((E.ParseWad (c.pending_buffer ++ c.buffer)).result =
        PacketResult.InvalidOrIncompleteWadFile → E.IsEOF c.input = false →
      ∃ c1, WADHead_OnEnter E c = Except.ok c1 ∧ c1.failed = c.failed ∧
        c1.result = c.result ∧ c1.wad_head_finished = false ∧
        c1.pending_buffer = c.pending_buffer ++ c.buffer ∧ c1.buffer = []) ∧
    ((((E.ParseWad (c.pending_buffer ++ c.buffer)).result =
          PacketResult.InvalidOrIncompleteWadFile ∧ E.IsEOF c.input = true) ∨
        ((E.ParseWad (c.pending_buffer ++ c.buffer)).result ≠ PacketResult.Success ∧
         (E.ParseWad (c.pending_buffer ++ c.buffer)).result ≠
          PacketResult.InvalidOrIncompleteWadFile)) →
      ∃ c1, WADHead_OnEnter E c = Except.ok c1 ∧
        c1.result = (E.ParseWad (c.pending_buffer ++ c.buffer)).result ∧
        c1.failed = true ∧ c1.wad_head_finished = false) := by
  have hw : c.wad_head_finished = false := by
    cases h : c.wad_head_finished
    · rfl
    · simp [WADHead_CanEnter, h] at hadm
  generalize hp : E.ParseWad (c.pending_buffer ++ c.buffer) = w
  constructor
  · intro hr he
    refine ⟨{ c with pending_buffer := c.pending_buffer ++ c.buffer, buffer := [] },
      ?_, rfl, rfl, hw, rfl, rfl⟩
    simp [WADHead_OnEnter, hp, hr, he]
  · rintro (⟨hr, he⟩ | ⟨hr1, hr2⟩)
    · refine ⟨{ c with pending_buffer := c.pending_buffer ++ c.buffer, buffer := [],
                       result := w.result, failed := true }, ?_, rfl, rfl, hw⟩
      simp [WADHead_OnEnter, hp, hr, he]
    · refine ⟨{ c with pending_buffer := c.pending_buffer ++ c.buffer, buffer := [],
                       result := w.result, failed := true }, ?_, rfl, rfl, hw⟩
      simp only [WADHead_OnEnter, hp]

/-- The witness of `WADHead_error_handling`: a truncated container of seven
bytes at end of input fails with `InvalidOrIncompleteWadFile`. -/
theorem WADHead_error_handling_witness :
    ∃ c1, WADHead_OnEnter sampleCollaborators
        { initialContext [] ⟨[], false⟩ sampleParams with
          format := Format.WAD, buffer := [0x50, 0x57, 0x41, 0x44, 0, 0, 0] } = Except.ok c1 ∧
      c1.result = PacketResult.InvalidOrIncompleteWadFile ∧ c1.failed = true ∧
      c1.wad_head_finished = false := by
  obtain ⟨c1, h1, h2, h3, h4⟩ :=
    (WADHead_error_handling sampleCollaborators
      { initialContext [] ⟨[], false⟩ sampleParams with
        format := Format.WAD, buffer := [0x50, 0x57, 0x41, 0x44, 0, 0, 0] }
      (by decide)).2 (Or.inl ⟨by decide, by decide⟩)
  exact ⟨c1, h1, h2.trans (by decide), h3, h4⟩

/-- Whatever the reader does, `GPG_OnEnter` ends with `result = Success`, one
more filter pass, and `failed` raised when the reader call threw. -/
theorem GPG_OnEnter_effect (E : Collaborators σ) (c c1 : DecryptionContext σ)
    (h : GPG_OnEnter E c = Except.ok c1) :
    c1.result = PacketResult.Success ∧ c1.filter_count = c.filter_count + 1 ∧
    c1.format = c.format ∧ c1.output = c.output ∧ c1.pending_buffer = c.pending_buffer ∧
    c1.input = c.input ∧ c1.wad_head_finished = c.wad_head_finished ∧
    c1.metadata = c.metadata ∧ (c.failed = true → c1.failed = true) := by
  unfold GPG_OnEnter at h
  split at h
  · cases h
  · split at h
    · cases h
    · injection h with h
      subst h
      unfold GPG_afterCall
      split <;> simp
  · split at h
    · cases h
    · injection h with h
      subst h
      unfold GPG_afterCall
      split <;> simp

/-- C1, at the input `FF 01 02` with a reader that throws `Other 7` on it: the
dispatcher reaches a context where `Decrypt` is next and the reader call
throws; after `GPG_OnEnter`, `failed = true` but the recorded result is
`Success`, not the error, and the run ends in `Fail` with result `Success`. -/
theorem GPG_OnEnter_error_overwritten :
    run sampleCollaborators 3 (initialContext [0xFF, 1, 2] ⟨[], false⟩ sampleParams) =
      RunResult.running sampleErrorContext ∧
    nextState sampleCollaborators sampleErrorContext = Except.ok (some StateId.Decrypt) ∧
    (readerCall sampleCollaborators sampleErrorContext samplePassphraseSession).error =
      some (PacketResult.Other 7) ∧
    Except.map (fun c => (c.result, c.failed))
      (GPG_OnEnter sampleCollaborators sampleErrorContext) =
        Except.ok (PacketResult.Success, true) ∧
    (match run sampleCollaborators 5 (initialContext [0xFF, 1, 2] ⟨[], false⟩ sampleParams) with
      | RunResult.terminal s c => s = StateId.Fail ∧ c.result = PacketResult.Success
      | _ => False) := by
  refine ⟨rfl, rfl, rfl, rfl, ?_⟩
  exact ⟨rfl, rfl⟩

/-! ## Invariants of the reachable contexts -/

/-- What `ParseFormat_OnEnter` leaves alone: everything but the two buffers and
the format, and the staged bytes as a whole. -/
theorem ParseFormat_OnEnter_frame (E : Collaborators σ) (c c1 : DecryptionContext σ)
    (h : ParseFormat_OnEnter E c = Except.ok c1) :
    c1.filter_count = c.filter_count ∧ c1.output = c.output ∧ c1.input = c.input ∧
    c1.passphrase_session = c.passphrase_session ∧
    c1.key_file_session = c.key_file_session ∧
    c1.wad_head_finished = c.wad_head_finished ∧ c1.metadata = c.metadata ∧
    c1.failed = c.failed ∧ c1.result = c.result ∧
    c1.pending_buffer ++ c1.buffer = c.pending_buffer ++ c.buffer := by
  unfold ParseFormat_OnEnter at h
  simp only at h
  repeat' split at h
  all_goals cases h <;> simp_all

/-- What `WADHead_OnEnter` leaves alone. -/
theorem WADHead_OnEnter_frame (E : Collaborators σ) (c c1 : DecryptionContext σ)
    (h : WADHead_OnEnter E c = Except.ok c1) :
    c1.filter_count = c.filter_count ∧ c1.format = c.format ∧ c1.output = c.output ∧
    c1.input = c.input ∧ c1.passphrase_session = c.passphrase_session ∧
    c1.key_file_session = c.key_file_session ∧ (c.failed = true → c1.failed = true) := by
  unfold WADHead_OnEnter at h
  simp only at h
  split at h
  · split at h
    · cases h
    · injection h with h; subst h; simp
  · split at h <;> (injection h with h; subst h; simp)
  · injection h with h; subst h; simp

/-- When `GPG_CanEnter` is true there is at most one filter pass so far, the
buffer is not empty, and a second pass is admitted for `NestedWAD` only. -/
theorem GPG_CanEnter_true (c : DecryptionContext σ) (h : GPG_CanEnter c = Except.ok true) :
    c.filter_count ≤ 1 ∧ c.buffer ≠ [] ∧ (c.filter_count = 1 → c.format = Format.NestedWAD) := by
  have hlen : ∀ b : Bytes, b.length = 0 ↔ b = [] := fun b => List.length_eq_zero
  cases hf : c.format <;> simp [GPG_CanEnter, hf, hlen] at h
  all_goals
    split_ifs at h
    all_goals first | (simp at h; done) | skip
  all_goals
    refine ⟨by omega, by assumption, ?_⟩
    intro h1
    first | (exact absurd h1 (by assumption)) | rfl

/-- The invariant behind the bound on the filter count is kept by every
admissible handler. -/
theorem filter_count_step (E : Collaborators σ) (c c1 : DecryptionContext σ)
    (hi : c.filter_count ≤ 2 ∧ (c.filter_count = 2 → c.format = Format.NestedWAD))
    (hs : Step E c c1) :
    c1.filter_count ≤ 2 ∧ (c1.filter_count = 2 → c1.format = Format.NestedWAD) := by
  obtain ⟨s, hcan, hon⟩ := hs
  cases s
  case Fail => simp only [OnEnter, Fail_OnEnter, Except.ok.injEq] at hon; subst hon; exact hi
  case End => simp only [OnEnter, End_OnEnter, Except.ok.injEq] at hon; subst hon; exact hi
  case WriteOut =>
    simp only [OnEnter, WriteOut_OnEnter, Except.ok.injEq] at hon; subst hon; exact hi
  case Decrypt =>
    obtain ⟨h1, _, h3⟩ := GPG_CanEnter_true c hcan
    obtain ⟨_, e2, e3, _⟩ := GPG_OnEnter_effect E c c1 hon
    rw [e2, e3]
    constructor
    · omega
    · intro h; exact h3 (by omega)
  case SetPassphraseSession =>
    simp only [OnEnter, SetPwdKey_OnEnter, Except.ok.injEq] at hon; subst hon; exact hi
  case ReadKeyFile =>
    simp only [OnEnter, Except.ok.injEq] at hon
    subst hon
    unfold ReadKeyFile_OnEnter
    simp only
    split
    · exact hi
    · split
      · exact hi
      · split <;> exact hi
  case WADHead =>
    obtain ⟨e1, e2, _⟩ := WADHead_OnEnter_frame E c c1 hon
    rw [e1, e2]; exact hi
  case ParseFormat =>
    obtain ⟨e1, _⟩ := ParseFormat_OnEnter_frame E c c1 hon
    have hne : c.format ≠ Format.NestedWAD := by
      intro hf
      simp [CanEnter, ParseFormat_CanEnter, hf] at hcan
    rw [e1]
    constructor
    · exact hi.1
    · intro h; exact absurd (hi.2 h) hne
  case ReadIn =>
    simp only [OnEnter, ReadIn_OnEnter, Except.ok.injEq] at hon; subst hon; simp

/-- C3: in every context reachable from an initial context by running
admissible handlers, `filter_count ≤ 2`, and `filter_count = 2` only when the
format is `NestedWAD`. -/
theorem filter_count_bound (E : Collaborators σ) (c0 c : DecryptionContext σ)
    (h0 : IsInitial c0) (hr : Reachable E c0 c) :
    c.filter_count ≤ 2 ∧ (c.filter_count = 2 → c.format = Format.NestedWAD) := by
  induction hr with
  | start =>
    obtain ⟨_, hfc, _⟩ := h0
    rw [hfc]; simp
  | next _ hs ih => exact filter_count_step E _ _ ih hs

/-- The context built by `initialContext` is initial. -/
theorem initialContext_isInitial (inp : σ) (md : PacketMetadata) (p : EncryptParams) :
    IsInitial (initialContext inp md p) :=
  ⟨rfl, rfl, rfl, rfl, rfl, rfl, rfl, rfl, rfl⟩

/-- The witness of `filter_count_bound`: the context after the first `ReadIn`
on a two-byte input. -/
theorem filter_count_bound_witness :
    (ReadIn_OnEnter sampleCollaborators
      (initialContext [0xC3, 1] ⟨[], false⟩ sampleParams)).filter_count ≤ 2 ∧
    ((ReadIn_OnEnter sampleCollaborators
      (initialContext [0xC3, 1] ⟨[], false⟩ sampleParams)).filter_count = 2 →
     (ReadIn_OnEnter sampleCollaborators
      (initialContext [0xC3, 1] ⟨[], false⟩ sampleParams)).format = Format.NestedWAD) :=
  filter_count_bound sampleCollaborators
    (initialContext [0xC3, 1] ⟨[], false⟩ sampleParams) _
    (initialContext_isInitial _ _ _)
    (Reachable.next Reachable.start ⟨StateId.ReadIn, rfl, rfl⟩)

/-! ## The dispatcher after a deferral -/

/-- The deferral of `ParseFormat_OnEnter`: too few staged bytes and the input
not at its end. -/
theorem ParseFormat_OnEnter_defer (E : Collaborators σ) (c : DecryptionContext σ)
    (hlt : (c.pending_buffer ++ c.buffer).length < (if c.filter_count == 1 then 4 else 1))
    (he : E.IsEOF c.input = false) :
    ParseFormat_OnEnter E c = Except.ok (stage c) := by
  unfold ParseFormat_OnEnter stage
  simp only
  rw [if_pos]
  simp [he]
  simpa using hlt

/-- The deferral of `WADHead_OnEnter`: an incomplete container and the input
not at its end. -/
theorem WADHead_OnEnter_defer (E : Collaborators σ) (c : DecryptionContext σ)
    (hr : (E.ParseWad (c.pending_buffer ++ c.buffer)).result =
      PacketResult.InvalidOrIncompleteWadFile)
    (he : E.IsEOF c.input = false) :
    WADHead_OnEnter E c = Except.ok (stage c) := by
  simp [WADHead_OnEnter, stage, hr, he]

/-- With an empty buffer `GPG_CanEnter` is not true: staging turns a defined
answer into `false`. -/
theorem GPG_CanEnter_stage (c : DecryptionContext σ) (b : Bool)
    (h : GPG_CanEnter c = Except.ok b) : GPG_CanEnter (stage c) = Except.ok false := by
  cases hf : c.format <;> simp [GPG_CanEnter, hf, stage] at h ⊢
  all_goals
    split_ifs at h ⊢
    all_goals first | rfl | (simp at h; done) | (intro h9; first | assumption | omega)

/-- The scan of the dispatcher selects a state exactly when the admission
predicates of the states before it are false and its own is true. -/
theorem firstMatch_cons (E : Collaborators σ) (c : DecryptionContext σ) (s t : StateId)
    (rest : List StateId) :
    firstMatch E c (s :: rest) = Except.ok (some t) ↔
      ((CanEnter E s c = Except.ok true ∧ s = t) ∨
       (CanEnter E s c = Except.ok false ∧ firstMatch E c rest = Except.ok (some t))) := by
  simp only [firstMatch]
  rcases CanEnter E s c with f | b
  · simp
  · cases b <;> simp

/-- The scan over no state selects none. -/
theorem firstMatch_nil (E : Collaborators σ) (c : DecryptionContext σ) :
    firstMatch E c [] = Except.ok none := rfl

/-- What the dispatcher has checked when it enters `ParseFormat`. -/
theorem nextState_ParseFormat (E : Collaborators σ) (c : DecryptionContext σ) :
    nextState E c = Except.ok (some StateId.ParseFormat) ↔
    (Fail_CanEnter c = false ∧ End_CanEnter E c = false ∧ WriteOut_CanEnter c = false ∧
     GPG_CanEnter c = Except.ok false ∧ SetPwdKey_CanEnter c = false ∧
     ReadKeyFile_CanEnter c = false ∧ WADHead_CanEnter c = false ∧
     ParseFormat_CanEnter c = true) := by
  simp [nextState, stateOrder, firstMatch_cons, firstMatch_nil, CanEnter]

/-- What the dispatcher has checked when it enters `WADHead`. -/
theorem nextState_WADHead (E : Collaborators σ) (c : DecryptionContext σ) :
    nextState E c = Except.ok (some StateId.WADHead) ↔
    (Fail_CanEnter c = false ∧ End_CanEnter E c = false ∧ WriteOut_CanEnter c = false ∧
     GPG_CanEnter c = Except.ok false ∧ SetPwdKey_CanEnter c = false ∧
     ReadKeyFile_CanEnter c = false ∧ WADHead_CanEnter c = true) := by
  simp [nextState, stateOrder, firstMatch_cons, firstMatch_nil, CanEnter]

/-- Staging does not change whether `ParseFormat` is admissible. -/
theorem ParseFormat_CanEnter_stage (c : DecryptionContext σ) :
    ParseFormat_CanEnter (stage c) = ParseFormat_CanEnter c := by
  have key : (decide (([] : Bytes).length > 0) ||
      decide ((c.pending_buffer ++ c.buffer).length > 0)) =
      (decide (c.buffer.length > 0) || decide (c.pending_buffer.length > 0)) := by
    rw [Bool.eq_iff_iff]
    simp only [List.length_nil, List.length_append, Bool.or_eq_true, decide_eq_true_eq]
    omega
  unfold ParseFormat_CanEnter stage
  simp only
  split
  · exact key
  · split
    · rfl
    · exact key
  · rfl

/-- Staging does not change whether `WADHead` is admissible. -/
theorem WADHead_CanEnter_stage (c : DecryptionContext σ) :
    WADHead_CanEnter (stage c) = WADHead_CanEnter c := by
  have key : (([] : Bytes).length == 0 && (c.pending_buffer ++ c.buffer).length == 0) =
      (c.buffer.length == 0 && c.pending_buffer.length == 0) := by
    cases c.buffer <;> cases c.pending_buffer <;> simp
  unfold WADHead_CanEnter stage
  simp only
  rw [key]

/-- After a deferral with the input not at its end, the dispatcher finds the
admission predicates of the states up to `ReadKeyFile` as they were, false. -/
theorem deferral_keeps_earlier_states (E : Collaborators σ) (c : DecryptionContext σ)
    (he : E.IsEOF c.input = false)
    (h : Fail_CanEnter c = false ∧ End_CanEnter E c = false ∧ WriteOut_CanEnter c = false ∧
     GPG_CanEnter c = Except.ok false ∧ SetPwdKey_CanEnter c = false ∧
     ReadKeyFile_CanEnter c = false) :
    Fail_CanEnter (stage c) = false ∧ End_CanEnter E (stage c) = false ∧
    WriteOut_CanEnter (stage c) = false ∧ GPG_CanEnter (stage c) = Except.ok false ∧
    SetPwdKey_CanEnter (stage c) = false ∧ ReadKeyFile_CanEnter (stage c) = false ∧
    ReadIn_CanEnter (stage c) = true := by
  obtain ⟨h1, _, _, h4, h5, h6⟩ := h
  refine ⟨h1, ?_, ?_, GPG_CanEnter_stage c false h4, h5, h6, rfl⟩
  · simp [End_CanEnter, stage, he]
  · simp [WriteOut_CanEnter, stage]

/-- The admission predicates after a deferral, in general. When `ParseFormat`
(after one filter pass, with fewer than four staged bytes) or `WADHead` (with
`ParseWad` reporting an incomplete container) was selected by the scan and
returns to await more bytes with the input not at its end, the bytes stay
staged, the admission predicate of `ReadIn` is true, and so is still the one of
the state that deferred: the scan over `stateOrder` selects that state again,
and selects `ReadIn` only over the order without it. -/
theorem deferral_next_state (E : Collaborators σ) (c : DecryptionContext σ)
    (he : E.IsEOF c.input = false) :
    (nextState E c = Except.ok (some StateId.ParseFormat) → c.filter_count = 1 →
      (c.pending_buffer ++ c.buffer).length < 4 →
      ∃ c1, ParseFormat_OnEnter E c = Except.ok c1 ∧
        c1.pending_buffer = c.pending_buffer ++ c.buffer ∧ c1.buffer = [] ∧
        ReadIn_CanEnter c1 = true ∧
        nextState E c1 = Except.ok (some StateId.ParseFormat) ∧
        firstMatch E c1 (stateOrder.erase StateId.ParseFormat) =
          Except.ok (some StateId.ReadIn)) ∧
    (nextState E c = Except.ok (some StateId.WADHead) →
      (E.ParseWad (c.pending_buffer ++ c.buffer)).result =
        PacketResult.InvalidOrIncompleteWadFile →
      ∃ c1, WADHead_OnEnter E c = Except.ok c1 ∧
        c1.pending_buffer = c.pending_buffer ++ c.buffer ∧ c1.buffer = [] ∧
        ReadIn_CanEnter c1 = true ∧
        nextState E c1 = Except.ok (some StateId.WADHead) ∧
        firstMatch E c1 (stateOrder.erase StateId.WADHead) =
          Except.ok (some StateId.ReadIn)) := by
  constructor
  · intro hn hc hlt
    obtain ⟨h1, h2, h3, h4, h5, h6, h7, h8⟩ := (nextState_ParseFormat E c).1 hn
    obtain ⟨g1, g2, g3, g4, g5, g6, g7⟩ :=
      deferral_keeps_earlier_states E c he ⟨h1, h2, h3, h4, h5, h6⟩
    have g8 : WADHead_CanEnter (stage c) = false := by rw [WADHead_CanEnter_stage]; exact h7
    have g9 : ParseFormat_CanEnter (stage c) = true := by
      rw [ParseFormat_CanEnter_stage]; exact h8
    refine ⟨stage c, ParseFormat_OnEnter_defer E c (by simpa [hc] using hlt) he, rfl, rfl,
      g7, (nextState_ParseFormat E _).2 ⟨g1, g2, g3, g4, g5, g6, g8, g9⟩, ?_⟩
    have e : stateOrder.erase StateId.ParseFormat =
        [StateId.Fail, StateId.End, StateId.WriteOut, StateId.Decrypt,
         StateId.SetPassphraseSession, StateId.ReadKeyFile, StateId.WADHead,
         StateId.ReadIn] := by decide
    rw [e]
    simp [firstMatch_cons, firstMatch_nil, CanEnter, g1, g2, g3, g4, g5, g6, g7, g8]
  · intro hn hr
    obtain ⟨h1, h2, h3, h4, h5, h6, h7⟩ := (nextState_WADHead E c).1 hn
    obtain ⟨g1, g2, g3, g4, g5, g6, g7⟩ :=
      deferral_keeps_earlier_states E c he ⟨h1, h2, h3, h4, h5, h6⟩
    have g8 : WADHead_CanEnter (stage c) = true := by rw [WADHead_CanEnter_stage]; exact h7
    have g9 : ParseFormat_CanEnter (stage c) = false := by
      rw [ParseFormat_CanEnter_stage]
      cases hf : c.format <;> simp [WADHead_CanEnter, ParseFormat_CanEnter, hf] at h7 ⊢
    refine ⟨stage c, WADHead_OnEnter_defer E c hr he, rfl, rfl,
      g7, (nextState_WADHead E _).2 ⟨g1, g2, g3, g4, g5, g6, g8⟩, ?_⟩
    have e : stateOrder.erase StateId.WADHead =
        [StateId.Fail, StateId.End, StateId.WriteOut, StateId.Decrypt,
         StateId.SetPassphraseSession, StateId.ReadKeyFile, StateId.ParseFormat,
         StateId.ReadIn] := by decide
    rw [e]
    simp [firstMatch_cons, firstMatch_nil, CanEnter, g1, g2, g3, g4, g5, g6, g7, g9]

/-- The first chunk read from a non-empty memory input starts with its first
byte. -/
theorem take_chunk_cons (b : Nat) (rest : Bytes) :
    List.take (min 16 (b :: rest).length) (b :: rest) = b :: rest.take 15 := by
  by_cases h : 16 ≤ (b :: rest).length
  · rw [Nat.min_eq_left h]; rfl
  · have h1 : (b :: rest).length ≤ 16 := by omega
    rw [Nat.min_eq_right h1, List.take_length]
    have h2 : rest.length ≤ 15 := by simp at h; omega
    rw [List.take_of_length_le h2]

/-- C6: over a memory input that is not empty and whose first byte `b` has its
high bit set and is not `0xEF`, with `key_only` set and no key file, the run of
the dispatcher from an initial context ends in `Fail` after four steps, with
result `KeyFileNotSpecified` and nothing written. -/
theorem missing_key_file_run (E : Collaborators Bytes) (hE : IsMemoryInput E)
    (c0 : DecryptionContext Bytes) (b : Nat) (rest : Bytes)
    (h0 : IsInitial c0) (hin : c0.input = b :: rest)
    (hb : b &&& 0x80 ≠ 0 ∧ b ≠ 0xEF)
    (hk : c0.metadata.key_only = true) (hf : c0.metadata.key_file = []) (n : Nat) :
    ∃ c, run E (n + 4) c0 = RunResult.terminal StateId.Fail c ∧
      c.result = PacketResult.KeyFileNotSpecified ∧ c.output = [] := by
  obtain ⟨hcount, hread, heof⟩ := hE
  obtain ⟨f1, f2, f3, f4, f5, f6, f7, f8, f9⟩ := h0
  have ht : isPacketTag b = true := (isPacketTag_eq_true b).2 hb
  rcases c0 with ⟨inp, out, buf, pend, fmt, fc, ps, ks, wf, md, ep, res, fl⟩
  simp only at hin hk hf f1 f2 f3 f4 f5 f6 f7 f8 f9
  subst hin f1 f2 f3 f4 f5 f6 f7 f8 f9
  have hmin : List.take (min 16 (rest.length + 1)) (b :: rest) = b :: rest.take 15 :=
    take_chunk_cons b rest
  simp [run, nextState, stateOrder, firstMatch, CanEnter, OnEnter, Fail_CanEnter,
    End_CanEnter, WriteOut_CanEnter, GPG_CanEnter, SetPwdKey_CanEnter, ReadKeyFile_CanEnter,
    WADHead_CanEnter, ParseFormat_CanEnter, ReadIn_CanEnter, ReadIn_OnEnter,
    ParseFormat_OnEnter, ReadKeyFile_OnEnter, Fail_OnEnter, heof, hread, hcount, hmin,
    ht, hk, hf]

/-- The sample collaborators read from a memory input. -/
theorem sampleCollaborators_memory : IsMemoryInput sampleCollaborators :=
  ⟨fun _ => rfl, fun _ _ => rfl, fun _ => rfl⟩

/-- The witness of `missing_key_file_run`: the input `C3 01 02` with `key_only`
and no key file. -/
theorem missing_key_file_run_witness :
    ∃ c, run sampleCollaborators 4 (initialContext [0xC3, 1, 2] ⟨[], true⟩ sampleParams) =
        RunResult.terminal StateId.Fail c ∧
      c.result = PacketResult.KeyFileNotSpecified ∧ c.output = [] :=
  missing_key_file_run sampleCollaborators sampleCollaborators_memory
    (initialContext [0xC3, 1, 2] ⟨[], true⟩ sampleParams) 0xC3 [1, 2]
    (initialContext_isInitial _ _ _) rfl (by decide) rfl rfl 0

/-- C4, refuted as stated: on a nested input of eleven bytes the run ends in
`End`; the passphrase reader produces the ten bytes of the container and the
key-file reader the two bytes of the payload, twelve bytes of plaintext in
all, and two bytes are written. -/
theorem nested_written_less_than_produced :
    (run sampleCollaborators 10
      (initialContext sampleNestedInput ⟨[], false⟩ sampleParams)).finalState =
        some StateId.End ∧
    (run sampleCollaborators 10
      (initialContext sampleNestedInput ⟨[], false⟩ sampleParams)).context.map
        (fun c => (c.format, c.output.length, totalProduced c,
          produced c.passphrase_session, produced c.key_file_session)) =
        some (Format.NestedWAD, 2, 12, 10, 2) := by
  constructor <;> rfl

/-! ## Bytes written and bytes produced -/

/-- The two ways `ParseFormat_OnEnter` returns: deferred, with the bytes staged
and the format as it was; or decided, with the bytes in the buffer and the new
format of the first or of the second stage. -/
theorem ParseFormat_OnEnter_cases (E : Collaborators σ) (c c1 : DecryptionContext σ)
    (h : ParseFormat_OnEnter E c = Except.ok c1) :
    (c1.format = c.format ∧ c1.buffer = [] ∧
      c1.pending_buffer = c.pending_buffer ++ c.buffer) ∨
    (c1.pending_buffer = [] ∧ c1.buffer = c.pending_buffer ++ c.buffer ∧
      ((c.filter_count = 0 ∧ (c1.format = Format.GPGByKeyFile ∨
          c1.format = Format.GPGOrNestedWad ∨ c1.format = Format.WAD)) ∨
       (c.filter_count = 1 ∧ (c1.format = Format.NestedWAD ∨ c1.format = Format.GPG)))) := by
  unfold ParseFormat_OnEnter at h
  simp only at h
  generalize (if (c.filter_count == 1) = true then 4 else 1) = req at h
  by_cases hd : (decide ((c.pending_buffer ++ c.buffer).length < req) && !E.IsEOF c.input) = true
  · rw [if_pos hd] at h
    left
    cases h
    exact ⟨rfl, rfl, rfl⟩
  · rw [if_neg hd] at h
    right
    by_cases hfc : (c.filter_count == 0) = true
    · rw [if_pos hfc] at h
      have hfc0 : c.filter_count = 0 := by simpa using hfc
      split at h
      · cases h
      · cases h
        refine ⟨rfl, rfl, Or.inl ⟨hfc0, ?_⟩⟩
        simp only
        split
        · split
          · exact Or.inl rfl
          · exact Or.inr (Or.inl rfl)
        · exact Or.inr (Or.inr rfl)
    · rw [if_neg hfc] at h
      by_cases hfc1 : (c.filter_count == 1) = true
      · rw [if_pos hfc1] at h
        have hfc1 : c.filter_count = 1 := by simpa using hfc1
        cases h
        refine ⟨rfl, rfl, Or.inr ⟨hfc1, ?_⟩⟩
        simp only
        split_ifs <;> simp
      · rw [if_neg hfc1] at h
        cases h

/-- The reader call of `GPG_OnEnter` adds the bytes it leaves in the buffer to
what the chosen reader has produced, and leaves the other session alone. -/
theorem GPG_OnEnter_produced (E : Collaborators σ) (c c1 : DecryptionContext σ)
    (h : GPG_OnEnter E c = Except.ok c1) :
    (GPG_selectReader c = Except.ok ReaderChoice.passphrase ∧
      produced c1.passphrase_session = produced c.passphrase_session + c1.buffer.length ∧
      c1.key_file_session = c.key_file_session) ∨
    (GPG_selectReader c = Except.ok ReaderChoice.keyFile ∧
      produced c1.key_file_session = produced c.key_file_session + c1.buffer.length ∧
      c1.passphrase_session = c.passphrase_session) := by
  unfold GPG_OnEnter at h
  split at h
  · cases h
  · next hsel =>
    left
    split at h
    · cases h
    · next s hs =>
      cases h
      refine ⟨hsel, ?_, ?_⟩
      · unfold GPG_afterCall
        split <;> simp [produced, recordCall, hs]
      · unfold GPG_afterCall
        split <;> rfl
  · next hsel =>
    right
    split at h
    · cases h
    · next s hs =>
      cases h
      refine ⟨hsel, ?_, ?_⟩
      · unfold GPG_afterCall
        split <;> simp [produced, recordCall, hs]
      · unfold GPG_afterCall
        split <;> rfl

/-- What `ReadKeyFile_OnEnter` leaves alone; the session it creates has a
reader that has not been called. -/
theorem ReadKeyFile_OnEnter_effect (E : Collaborators σ) (c : DecryptionContext σ)
    (hn : c.key_file_session = none) :
    (ReadKeyFile_OnEnter E c).format = c.format ∧
    (ReadKeyFile_OnEnter E c).filter_count = c.filter_count ∧
    (ReadKeyFile_OnEnter E c).buffer = c.buffer ∧
    (ReadKeyFile_OnEnter E c).pending_buffer = c.pending_buffer ∧
    (ReadKeyFile_OnEnter E c).output = c.output ∧
    (ReadKeyFile_OnEnter E c).passphrase_session = c.passphrase_session ∧
    (ReadKeyFile_OnEnter E c).wad_head_finished = c.wad_head_finished ∧
    produced (ReadKeyFile_OnEnter E c).key_file_session = 0 ∧
    (c.failed = true → (ReadKeyFile_OnEnter E c).failed = true) := by
  unfold ReadKeyFile_OnEnter
  simp only
  split
  · simp [hn, produced]
  · split
    · simp [produced]
    · split <;> simp [produced]

/-- When `GPG_CanEnter` is true, the WAD head is finished in format `WAD`, and
in format `NestedWAD` after one filter pass. -/
theorem GPG_CanEnter_finished (c : DecryptionContext σ) (h : GPG_CanEnter c = Except.ok true) :
    (c.format = Format.WAD → c.wad_head_finished = true) ∧
    (c.format = Format.NestedWAD → c.filter_count = 1 → c.wad_head_finished = true) ∧
    ((c.format = Format.GPG ∨ c.format = Format.GPGOrNestedWad ∨
      c.format = Format.GPGByKeyFile ∨ c.format = Format.WAD) → c.filter_count = 0) ∧
    c.format ≠ Format.Unknown ∧ c.format ≠ Format.Empty := by
  cases hf : c.format <;> simp [GPG_CanEnter, hf] at h
  all_goals
    split_ifs at h
    all_goals first | (simp at h; done) | skip
  all_goals simp
  all_goals first | omega | (cases hw : c.wad_head_finished <;> simp_all <;> omega)

/-- A handler never lowers `failed`. -/
theorem failed_sticky {b b1 : Bool} (h : b = true → b1 = true) (h1 : b1 = false) :
    b = false := by
  cases b
  · rfl
  · rw [h rfl] at h1; cases h1

/-- The account of the bytes written is kept by every admissible handler. -/
theorem WrittenInv_step (E : Collaborators σ) (c c1 : DecryptionContext σ)
    (hi : WrittenInv c) (hs : Step E c c1) : WrittenInv c1 := by
  obtain ⟨s, hcan, hon⟩ := hs
  cases s
  case Fail =>
    simp only [OnEnter, Fail_OnEnter, Except.ok.injEq] at hon; subst hon; exact hi
  case End =>
    simp only [OnEnter, End_OnEnter, Except.ok.injEq] at hon; subst hon; exact hi
  case ReadIn =>
    simp only [OnEnter, ReadIn_OnEnter, Except.ok.injEq] at hon
    simp only [CanEnter, ReadIn_CanEnter, Except.ok.injEq, beq_iff_eq] at hcan
    subst hon
    intro hf
    have hi1 := hi hf
    simp only [hcan] at hi1
    cases hfmt : c.format <;> simp only [hfmt, WrittenAccount] at hi1 ⊢
    all_goals simp_all
  case WriteOut =>
    simp only [OnEnter, WriteOut_OnEnter, Except.ok.injEq] at hon
    simp only [CanEnter, Except.ok.injEq] at hcan
    subst hon
    intro hf
    have hi1 := hi hf
    cases hfmt : c.format <;> simp [WriteOut_CanEnter, hfmt] at hcan <;>
      simp only [hfmt, WrittenAccount] at hi1 ⊢
    all_goals simp_all
    all_goals omega
  case Decrypt =>
    obtain ⟨_, e2, e3, e4, e5, _, e7, _, e9⟩ := GPG_OnEnter_effect E c c1 hon
    obtain ⟨g1, g2, g3, g4, g5⟩ := GPG_CanEnter_finished c hcan
    obtain ⟨k1, _, k3⟩ := GPG_CanEnter_true c hcan
    intro hf
    have hi1 := hi (failed_sticky e9 hf)
    rw [e2, e3, e4, e5, e7]
    have h01 : c.filter_count = 0 ∨ c.filter_count = 1 := by omega
    rcases GPG_OnEnter_produced E c c1 hon with ⟨hsel, hp, hk⟩ | ⟨hsel, hp, hk⟩
    · rw [hp, hk]
      rcases h01 with h01 | h01 <;> cases hfmt : c.format <;>
        simp [GPG_selectReader, hfmt, h01] at hsel g1 g2 g3 g4 g5 k3 <;>
        simp only [hfmt, h01, WrittenAccount] at hi1 ⊢ <;>
        (try simp_all)
    · rw [hp, hk]
      rcases h01 with h01 | h01 <;> cases hfmt : c.format <;>
        simp [GPG_selectReader, hfmt, h01] at hsel g1 g2 g3 g4 g5 k3 <;>
        simp only [hfmt, h01, WrittenAccount] at hi1 ⊢ <;>
        (try simp_all)
  case SetPassphraseSession =>
    simp only [OnEnter, SetPwdKey_OnEnter, Except.ok.injEq] at hon
    simp only [CanEnter, Except.ok.injEq] at hcan
    subst hon
    intro hf
    have hi1 := hi hf
    have hnone : c.passphrase_session = none := by
      cases hfmt : c.format <;> simp [SetPwdKey_CanEnter, hfmt] at hcan <;> exact hcan
    rw [hnone] at hi1
    exact hi1
  case ReadKeyFile =>
    simp only [OnEnter, Except.ok.injEq] at hon
    simp only [CanEnter, Except.ok.injEq] at hcan
    have hnone : c.key_file_session = none := by
      cases hk : c.key_file_session
      · rfl
      · simp [ReadKeyFile_CanEnter, hk] at hcan
    obtain ⟨e1, e2, e3, e4, e5, e6, e7, e8, e9⟩ := ReadKeyFile_OnEnter_effect E c hnone
    subst hon
    intro hf
    have hi1 := hi (failed_sticky e9 hf)
    rw [e1, e2, e3, e4, e5, e6, e7, e8]
    rw [hnone] at hi1
    exact hi1
  case WADHead =>
    obtain ⟨e1, e2, e3, _, e5, e6, e7⟩ := WADHead_OnEnter_frame E c c1 hon
    simp only [CanEnter, Except.ok.injEq] at hcan
    intro hf
    have hi1 := hi (failed_sticky e7 hf)
    rw [e1, e2, e3, e5, e6]
    have hfin : c.wad_head_finished = false := by
      cases h : c.wad_head_finished
      · rfl
      · simp [WADHead_CanEnter, h] at hcan
    rw [hfin] at hi1
    cases hfmt : c.format <;> simp [WADHead_CanEnter, hfmt, hfin] at hcan <;>
      simp only [hfmt, WrittenAccount] at hi1 ⊢
    · obtain ⟨h1, h2, h3⟩ := hi1
      have h0 := h3 trivial
      simp only [h0] at h2 ⊢
      refine ⟨h1, ?_, fun _ => trivial⟩
      simpa using h2
    · obtain ⟨h1, h2⟩ := hi1
      have h0 := h2 trivial
      have hne : ¬ c.filter_count = 2 := h0
      simp only [hne, if_false] at h1 ⊢
      exact ⟨h1, fun _ => h0⟩
  case ParseFormat =>
    obtain ⟨e1, e2, _, e4, e5, e6, _, e8, _, e10⟩ := ParseFormat_OnEnter_frame E c c1 hon
    simp only [CanEnter, Except.ok.injEq] at hcan
    intro hf
    have hi1 := hi (e8 ▸ hf)
    have hlen : c1.pending_buffer.length + c1.buffer.length =
        c.pending_buffer.length + c.buffer.length := by
      rw [← List.length_append, e10, List.length_append]
    rw [e1, e2, e4, e5, e6]
    rcases ParseFormat_OnEnter_cases E c c1 hon with ⟨d1, d2, d3⟩ | ⟨d1, d2, d3⟩
    · rw [d1]
      rw [d2, d3, List.length_append, List.length_nil]
      cases hfmt : c.format <;> simp [ParseFormat_CanEnter, hfmt] at hcan <;>
        simp only [hfmt, WrittenAccount] at hi1 ⊢
      · exact hi1
      · obtain ⟨h1, h2, h3⟩ := hi1
        refine ⟨h1, h2, ?_⟩
        simp only [hcan.1, if_true] at h3 ⊢
        omega
    · rw [d1, d2, List.length_append, List.length_nil]
      cases hfmt : c.format <;> simp [ParseFormat_CanEnter, hfmt] at hcan <;>
        simp only [hfmt, WrittenAccount] at hi1
      · obtain ⟨h1, h2, h3, h4⟩ := hi1
        rcases d3 with ⟨_, d | d | d⟩ | ⟨d0, _⟩
        · rw [d]; simp only [WrittenAccount, h4]; simp [h1, h2, h3]
        · rw [d]; simp only [WrittenAccount, h4]; simp [h1, h2, h3]
        · rw [d]; simp only [WrittenAccount, h4]; simp [h1, h2, h3]
        · omega
      · obtain ⟨h1, h2, h3⟩ := hi1
        simp only [hcan.1, if_true] at h3
        rcases d3 with ⟨d0, _⟩ | ⟨_, d | d⟩
        · omega
        · rw [d]; simp only [WrittenAccount, hcan.1]; simp [h1, h2]
        · rw [d]; simp only [WrittenAccount, hcan.1]; simp [h1, h2, h3]

/-- A state selected by the scan is admissible. -/
theorem firstMatch_canEnter (E : Collaborators σ) (c : DecryptionContext σ) (s : StateId)
    (l : List StateId) (h : firstMatch E c l = Except.ok (some s)) :
    CanEnter E s c = Except.ok true := by
  induction l with
  | nil => simp [firstMatch_nil] at h
  | cons t rest ih =>
    rcases (firstMatch_cons E c t s rest).1 h with ⟨h1, h2⟩ | ⟨_, h2⟩
    · rw [← h2]; exact h1
    · exact ih h2

/-- A step of the dispatcher is a step of an admissible handler. -/
theorem nextState_step (E : Collaborators σ) (c c1 : DecryptionContext σ) (s : StateId)
    (hn : nextState E c = Except.ok (some s)) (ho : OnEnter E s c = Except.ok c1) :
    Step E c c1 :=
  ⟨s, firstMatch_canEnter E c s stateOrder hn, ho⟩

/-- A run that terminates entered its terminal state from a context that keeps
every property the admissible handlers keep. -/
theorem run_terminal_inv (E : Collaborators σ) (Inv : DecryptionContext σ → Prop)
    (hstep : ∀ c c1, Inv c → Step E c c1 → Inv c1) (n : Nat) :
    ∀ (c0 c : DecryptionContext σ) (s : StateId), Inv c0 →
      run E n c0 = RunResult.terminal s c →
      ∃ c1, Inv c1 ∧ nextState E c1 = Except.ok (some s) ∧ OnEnter E s c1 = Except.ok c ∧
        (s = StateId.End ∨ s = StateId.Fail) := by
  induction n with
  | zero => intro c0 c s _ h; simp [run] at h
  | succ k ih =>
    intro c0 c s hinv h
    unfold run at h
    split at h
    · cases h
    · cases h
    · next t hn =>
      split at h
      · cases h
      · next c2 ho =>
        split at h
        · next hterm =>
          cases h
          exact ⟨c0, hinv, hn, ho, hterm⟩
        · exact ih c2 c s (hstep c0 c2 hinv (nextState_step E c0 c2 t hn ho)) h

/-- The account of the bytes written holds in an initial context. -/
theorem WrittenInv_initial (c0 : DecryptionContext σ) (h0 : IsInitial c0) : WrittenInv c0 := by
  obtain ⟨f1, f2, _, _, f5, f6, f7, _, _⟩ := h0
  intro _
  rw [f1, f2, f5, f6, f7]
  simp [WrittenAccount, produced]

/-- What the dispatcher has checked when it enters `End`. -/
theorem nextState_End (E : Collaborators σ) (c : DecryptionContext σ) :
    nextState E c = Except.ok (some StateId.End) ↔
    (Fail_CanEnter c = false ∧ End_CanEnter E c = true) := by
  simp [nextState, stateOrder, firstMatch_cons, firstMatch_nil, CanEnter]

/-- C4, as amended: for every run of the dispatcher from an initial context
that ends in `End`, the number of bytes written equals the plaintext produced
by the reader of the last pass: the key-file reader when the format is
`NestedWAD` (the plaintext of the passphrase reader is the WAD container, which
goes to `WADHead` and to the key-file reader, not to the output), and all the
plaintext produced by the readers in every other format. -/
theorem written_equals_last_pass_produced (E : Collaborators σ)
    (c0 c : DecryptionContext σ) (n : Nat) (h0 : IsInitial c0)
    (hrun : run E n c0 = RunResult.terminal StateId.End c) :
    c.output.length =
      (if c.format = Format.NestedWAD then produced c.key_file_session
       else totalProduced c) := by
  obtain ⟨c1, hinv, hn, ho, _⟩ :=
    run_terminal_inv E WrittenInv (WrittenInv_step E) n c0 c StateId.End
      (WrittenInv_initial c0 h0) hrun
  obtain ⟨hfail, hend⟩ := (nextState_End E c1).1 hn
  simp only [OnEnter, End_OnEnter, Except.ok.injEq] at ho
  subst ho
  have hacc := hinv hfail
  simp only [End_CanEnter, Bool.and_eq_true, List.isEmpty_iff] at hend
  obtain ⟨⟨_, hb⟩, hp⟩ := hend
  rw [hb, hp] at hacc
  simp only [totalProduced]
  cases hfmt : c1.format <;>
    simp only [hfmt, WrittenAccount, List.length_nil, ite_self, Nat.add_zero] at hacc <;>
    simp only [hfmt, reduceCtorEq, if_false, if_true] <;>
    omega

/-- The witness of `written_equals_last_pass_produced`: the nested run on
`sampleNestedInput`, which ends in `End` after ten steps. -/
theorem written_equals_last_pass_produced_witness :
    (((run sampleCollaborators 10
        (initialContext sampleNestedInput ⟨[], false⟩ sampleParams)).context).getD
          (initialContext [] ⟨[], false⟩ sampleParams)).output.length =
      (if (((run sampleCollaborators 10
          (initialContext sampleNestedInput ⟨[], false⟩ sampleParams)).context).getD
            (initialContext [] ⟨[], false⟩ sampleParams)).format = Format.NestedWAD
       then produced (((run sampleCollaborators 10
          (initialContext sampleNestedInput ⟨[], false⟩ sampleParams)).context).getD
            (initialContext [] ⟨[], false⟩ sampleParams)).key_file_session
       else totalProduced (((run sampleCollaborators 10
          (initialContext sampleNestedInput ⟨[], false⟩ sampleParams)).context).getD
            (initialContext [] ⟨[], false⟩ sampleParams))) :=
  written_equals_last_pass_produced sampleCollaborators
    (initialContext sampleNestedInput ⟨[], false⟩ sampleParams) _ 10
    (initialContext_isInitial _ _ _) rfl

/-- C5, at a nested input of seventeen bytes over a memory input: the second
chunk is the last byte, the `Finish` of the passphrase reader on it yields no
bytes, and the run ends in `End` right after it. Both sessions were
constructed; the passphrase reader received one `Finish`, the key-file reader
one `Update` and no `Finish`. -/
theorem nested_key_file_reader_not_finished :
    trace sampleCollaborators 12
        (initialContext sampleUnfinishedInput ⟨[], false⟩ sampleParams) =
      [StateId.ReadIn, StateId.ParseFormat, StateId.SetPassphraseSession, StateId.Decrypt,
       StateId.ParseFormat, StateId.WADHead, StateId.ReadKeyFile, StateId.Decrypt,
       StateId.WriteOut, StateId.ReadIn, StateId.Decrypt, StateId.End] ∧
    (run sampleCollaborators 12
      (initialContext sampleUnfinishedInput ⟨[], false⟩ sampleParams)).finalState =
        some StateId.End ∧
    (run sampleCollaborators 12
      (initialContext sampleUnfinishedInput ⟨[], false⟩ sampleParams)).context.map
        (fun c => (c.format, c.failed, c.passphrase_session.isSome,
          finishCalls c.passphrase_session, c.key_file_session.isSome,
          c.key_file_session.map (fun d => d.reader.length),
          finishCalls c.key_file_session)) =
        some (Format.NestedWAD, false, true, 1, true, some 1, 0) := by
  refine ⟨rfl, rfl, rfl⟩

/-! ## The handlers, one at a time: second part -/

/-- C11: the outcomes of `ReadKeyFile_OnEnter`, in order. With no key file
named, the result is `KeyFileNotSpecified`, `failed` is raised and nothing else
changes: no session is created and no collaborator is called. Otherwise, when
`LoadKeyFromFile` returns a result other than `Success`, that result is
recorded and `failed` is raised; otherwise, when `DecryptKeyFileContent` fails,
the result is `InvalidKeyFilePassphrase` and `failed` is raised; otherwise the
result is `Success`, `failed` is as it was and the key-file session is
present. -/
theorem ReadKeyFile_outcomes (E : Collaborators σ) (c : DecryptionContext σ) :
    (c.metadata.key_file = [] →
      ReadKeyFile_OnEnter E c =
        { c with result := PacketResult.KeyFileNotSpecified, failed := true }) ∧
    (c.metadata.key_file ≠ [] →
      (E.LoadKeyFromFile c.metadata.key_file (c.encrypt_params.libcurl_path.getD [])
        (c.encrypt_params.libcurl_parameters.getD [])).1 ≠ PacketResult.Success →
      (ReadKeyFile_OnEnter E c).result =
        (E.LoadKeyFromFile c.metadata.key_file (c.encrypt_params.libcurl_path.getD [])
          (c.encrypt_params.libcurl_parameters.getD [])).1 ∧
      (ReadKeyFile_OnEnter E c).failed = true) ∧
    (c.metadata.key_file ≠ [] →
      (E.LoadKeyFromFile c.metadata.key_file (c.encrypt_params.libcurl_path.getD [])
        (c.encrypt_params.libcurl_parameters.getD [])).1 = PacketResult.Success →
      (E.DecryptKeyFileContent
        (E.LoadKeyFromFile c.metadata.key_file (c.encrypt_params.libcurl_path.getD [])
          (c.encrypt_params.libcurl_parameters.getD [])).2
        c.encrypt_params.key_file_encrypt_params).1 = false →
      (ReadKeyFile_OnEnter E c).result = PacketResult.InvalidKeyFilePassphrase ∧
      (ReadKeyFile_OnEnter E c).failed = true) ∧
    (c.metadata.key_file ≠ [] →
      (E.LoadKeyFromFile c.metadata.key_file (c.encrypt_params.libcurl_path.getD [])
        (c.encrypt_params.libcurl_parameters.getD [])).1 = PacketResult.Success →
      (E.DecryptKeyFileContent
        (E.LoadKeyFromFile c.metadata.key_file (c.encrypt_params.libcurl_path.getD [])
          (c.encrypt_params.libcurl_parameters.getD [])).2
        c.encrypt_params.key_file_encrypt_params).1 = true →
      (ReadKeyFile_OnEnter E c).result = PacketResult.Success ∧
      (ReadKeyFile_OnEnter E c).failed = c.failed ∧
      (ReadKeyFile_OnEnter E c).key_file_session.isSome = true) := by
  refine ⟨?_, ?_, ?_, ?_⟩
  · intro hk
    simp [ReadKeyFile_OnEnter, hk]
  · intro hk hl
    have hk2 : c.metadata.key_file.isEmpty = false := by
      cases h : c.metadata.key_file
      · exact absurd h hk
      · rfl
    simp [ReadKeyFile_OnEnter, hk2, hl]
  · intro hk hl hd
    have hk2 : c.metadata.key_file.isEmpty = false := by
      cases h : c.metadata.key_file
      · exact absurd h hk
      · rfl
    simp [ReadKeyFile_OnEnter, hk2, hl, hd]
  · intro hk hl hd
    have hk2 : c.metadata.key_file.isEmpty = false := by
      cases h : c.metadata.key_file
      · exact absurd h hk
      · rfl
    simp [ReadKeyFile_OnEnter, hk2, hl, hd]

/-- The witness of `ReadKeyFile_outcomes`: with the key file `k` and the sample
loader, the key-file session is present and the result is `Success`. -/
theorem ReadKeyFile_outcomes_witness :
    (ReadKeyFile_OnEnter sampleCollaborators sampleKeyFileContext).result =
      PacketResult.Success ∧
    (ReadKeyFile_OnEnter sampleCollaborators sampleKeyFileContext).failed =
      sampleKeyFileContext.failed ∧
    (ReadKeyFile_OnEnter sampleCollaborators sampleKeyFileContext).key_file_session.isSome =
      true :=
  (ReadKeyFile_outcomes sampleCollaborators sampleKeyFileContext).2.2.2
    (by decide) (by decide) (by decide)

/-- When `GPG_CanEnter` is true, by format. -/
theorem GPG_CanEnter_true_iff (c : DecryptionContext σ) :
    GPG_CanEnter c = Except.ok true ↔
      (c.filter_count ≤ 1 ∧ c.buffer ≠ [] ∧
        (((c.format = Format.GPG ∨ c.format = Format.GPGOrNestedWad) ∧
            c.passphrase_session.isSome = true ∧ c.filter_count = 0) ∨
         (c.format = Format.GPGByKeyFile ∧ c.key_file_session.isSome = true ∧
            c.filter_count = 0) ∨
         (c.format = Format.WAD ∧ c.wad_head_finished = true ∧
            c.key_file_session.isSome = true ∧ c.filter_count = 0) ∨
         (c.format = Format.NestedWAD ∧ c.passphrase_session.isSome = true ∧
            (c.filter_count = 1 →
              c.wad_head_finished = true ∧ c.key_file_session.isSome = true)))) := by
  have hlen : ∀ b : Bytes, b.length = 0 ↔ b = [] := fun b => List.length_eq_zero
  cases hf : c.format <;> cases hp : c.passphrase_session <;>
    cases hk : c.key_file_session <;> cases hw : c.wad_head_finished <;>
    simp [GPG_CanEnter, hf, hp, hk, hw, hlen] <;>
    split_ifs <;> simp_all <;> omega

/-- C12: `GPG_CanEnter` is true exactly when at most one filter pass has run,
the buffer is not empty, and the format has what it needs: `GPG` or
`GPGOrNestedWad` a passphrase session and no pass yet; `GPGByKeyFile` a
key-file session and no pass yet; `WAD` a finished WAD head, a key-file session
and no pass yet; `NestedWAD` a passphrase session and, after one pass, a
finished WAD head and a key-file session. It is false for `Empty` and
`Unknown`. -/
theorem GPG_CanEnter_iff (c : DecryptionContext σ) :
    (GPG_CanEnter c = Except.ok true ↔
      (c.filter_count ≤ 1 ∧ c.buffer ≠ [] ∧
        (((c.format = Format.GPG ∨ c.format = Format.GPGOrNestedWad) ∧
            c.passphrase_session.isSome = true ∧ c.filter_count = 0) ∨
         (c.format = Format.GPGByKeyFile ∧ c.key_file_session.isSome = true ∧
            c.filter_count = 0) ∨
         (c.format = Format.WAD ∧ c.wad_head_finished = true ∧
            c.key_file_session.isSome = true ∧ c.filter_count = 0) ∨
         (c.format = Format.NestedWAD ∧ c.passphrase_session.isSome = true ∧
            (c.filter_count = 1 →
              c.wad_head_finished = true ∧ c.key_file_session.isSome = true))))) ∧
    ((c.format = Format.Empty ∨ c.format = Format.Unknown) →
      GPG_CanEnter c = Except.ok false) := by
  refine ⟨GPG_CanEnter_true_iff c, ?_⟩
  rintro (hf | hf) <;> simp [GPG_CanEnter, hf]

/-- The assertion of `GPG_CanEnter` fails exactly in format `NestedWAD` with at
most one filter pass and no passphrase session. -/
theorem GPG_CanEnter_fault_iff (c : DecryptionContext σ) (f : Fault) :
    GPG_CanEnter c = Except.error f ↔
      (f = Fault.assertFailed ∧ c.format = Format.NestedWAD ∧ c.filter_count ≤ 1 ∧
        c.passphrase_session = none) := by
  cases hf : c.format <;> cases hp : c.passphrase_session <;>
    simp [GPG_CanEnter, hf, hp] <;>
    split_ifs <;> simp_all
  all_goals first | omega | (constructor <;> intro h <;> simp_all)

/-- Only `WriteOut` writes: every other admissible handler leaves the output
as it was. -/
theorem output_frame (E : Collaborators σ) (c c1 : DecryptionContext σ) (s : StateId)
    (hs : s ≠ StateId.WriteOut) (hon : OnEnter E s c = Except.ok c1) :
    c1.output = c.output := by
  cases s
  case WriteOut => exact absurd rfl hs
  case Fail => simp only [OnEnter, Fail_OnEnter, Except.ok.injEq] at hon; subst hon; rfl
  case End => simp only [OnEnter, End_OnEnter, Except.ok.injEq] at hon; subst hon; rfl
  case Decrypt => exact (GPG_OnEnter_effect E c c1 hon).2.2.2.1
  case SetPassphraseSession =>
    simp only [OnEnter, SetPwdKey_OnEnter, Except.ok.injEq] at hon; subst hon; rfl
  case ReadKeyFile =>
    simp only [OnEnter, Except.ok.injEq] at hon
    subst hon
    unfold ReadKeyFile_OnEnter
    simp only
    split
    · rfl
    · split
      · rfl
      · split <;> rfl
  case WADHead => exact (WADHead_OnEnter_frame E c c1 hon).2.2.1
  case ParseFormat => exact (ParseFormat_OnEnter_frame E c c1 hon).2.1
  case ReadIn => simp only [OnEnter, ReadIn_OnEnter, Except.ok.injEq] at hon; subst hon; rfl

/-- When `WriteOut_CanEnter` is true, by format. -/
theorem WriteOut_CanEnter_true_iff (c : DecryptionContext σ) :
    WriteOut_CanEnter c = true ↔
      (c.buffer ≠ [] ∧
        (((c.format = Format.GPG ∨ c.format = Format.GPGByKeyFile ∨ c.format = Format.WAD) ∧
            c.filter_count = 1) ∨
         (c.format = Format.NestedWAD ∧ c.filter_count = 2))) := by
  have hlen : ∀ b : Bytes, b.length = 0 ↔ b = [] := fun b => List.length_eq_zero
  cases hf : c.format <;> simp [WriteOut_CanEnter, hf, hlen]

/-- C13: `WriteOut_CanEnter` is true exactly when the buffer is not empty and
either the format is `GPG`, `GPGByKeyFile` or `WAD` after one filter pass, or
the format is `NestedWAD` after two. So while the format is `Empty`, `Unknown`
or `GPGOrNestedWad`, and in `NestedWAD` after the outer pass only, `WriteOut`
is not admissible and no admissible handler writes a byte. -/
theorem WriteOut_CanEnter_iff (c : DecryptionContext σ) :
    (WriteOut_CanEnter c = true ↔
      (c.buffer ≠ [] ∧
        (((c.format = Format.GPG ∨ c.format = Format.GPGByKeyFile ∨ c.format = Format.WAD) ∧
            c.filter_count = 1) ∨
         (c.format = Format.NestedWAD ∧ c.filter_count = 2)))) ∧
    ((c.format = Format.Empty ∨ c.format = Format.Unknown ∨
        c.format = Format.GPGOrNestedWad ∨
        (c.format = Format.NestedWAD ∧ c.filter_count = 1)) →
      (WriteOut_CanEnter c = false ∧
        ∀ (E : Collaborators σ) (c1 : DecryptionContext σ), Step E c c1 →
          c1.output = c.output)) := by
  have hiff := WriteOut_CanEnter_true_iff c
  refine ⟨hiff, ?_⟩
  intro hfmt
  have hno : WriteOut_CanEnter c = false := by
    cases h : WriteOut_CanEnter c
    · rfl
    · obtain ⟨_, h2⟩ := hiff.1 h
      rcases hfmt with h1 | h1 | h1 | ⟨h1, h3⟩ <;> rcases h2 with ⟨h4 | h4 | h4, h5⟩ | ⟨h4, h5⟩ <;>
        simp_all
  refine ⟨hno, ?_⟩
  rintro E c1 ⟨s, hcan, hon⟩
  apply output_frame E c c1 s _ hon
  intro hs
  subst hs
  simp [CanEnter, hno] at hcan

/-- C16: `WADHead_OnEnter` never overwrites a key file that was supplied. When
it returns (it does unless `ParseWad` succeeds with a payload offset beyond the
staged bytes), the key file of the metadata is the previous one whenever that
was not empty, the one `ParseWad` returned when it was empty and `ParseWad`
succeeded, and the metadata are unchanged whenever `ParseWad` did not
succeed. -/
theorem WADHead_key_file (E : Collaborators σ) (c : DecryptionContext σ)
    (hin : (E.ParseWad (c.pending_buffer ++ c.buffer)).result = PacketResult.Success →
      (E.ParseWad (c.pending_buffer ++ c.buffer)).payload_offset ≤
        (c.pending_buffer ++ c.buffer).length) :
    ∃ c1, WADHead_OnEnter E c = Except.ok c1 ∧
      (c.metadata.key_file ≠ [] → c1.metadata.key_file = c.metadata.key_file) ∧
      (c.metadata.key_file = [] →
        (E.ParseWad (c.pending_buffer ++ c.buffer)).result = PacketResult.Success →
        c1.metadata.key_file = (E.ParseWad (c.pending_buffer ++ c.buffer)).key_file) ∧
      ((E.ParseWad (c.pending_buffer ++ c.buffer)).result ≠ PacketResult.Success →
        c1.metadata = c.metadata) ∧
      c1.metadata.key_only = c.metadata.key_only := by
  generalize hw : E.ParseWad (c.pending_buffer ++ c.buffer) = w at hin
  have hemp : c.metadata.key_file.isEmpty = true ↔ c.metadata.key_file = [] :=
    List.isEmpty_iff
  unfold WADHead_OnEnter
  simp only [hw]
  split
  · next hs =>
    have ho : ¬ (w.payload_offset > (c.pending_buffer ++ c.buffer).length) := by
      have := hin hs; omega
    rw [if_neg ho]
    refine ⟨_, rfl, ?_, ?_, ?_, rfl⟩
    · intro hk
      have : ¬ c.metadata.key_file.isEmpty = true := fun h => hk (hemp.1 h)
      simp [this]
    · intro hk _
      simp [hk]
    · intro hne; exact absurd hs hne
  · split
    · exact ⟨_, rfl, fun _ => rfl, fun _ hs => by simp_all, fun _ => rfl, rfl⟩
    · exact ⟨_, rfl, fun _ => rfl, fun _ hs => by simp_all, fun _ => rfl, rfl⟩
  · next h1 _ =>
    exact ⟨_, rfl, fun _ => rfl, fun _ hs => absurd hs h1, fun _ => rfl, rfl⟩

/-- The witness of `WADHead_key_file`: on the sample container with no key
file supplied, the key file becomes the `k` of the header. -/
theorem WADHead_key_file_witness :
    ∃ c1, WADHead_OnEnter sampleCollaborators sampleWadContext = Except.ok c1 ∧
      c1.metadata.key_file = [0x6B] := by
  obtain ⟨c1, h1, _, h3, _⟩ :=
    WADHead_key_file sampleCollaborators sampleWadContext (fun _ => by decide)
  exact ⟨c1, h1, (h3 rfl (by decide)).trans (by decide)⟩

/-- The `GPG_OnEnter` that calls the reader of the passphrase session. -/
theorem GPG_OnEnter_passphrase (E : Collaborators σ) (c : DecryptionContext σ)
    (d : DecryptionSession) (hsel : GPG_selectReader c = Except.ok ReaderChoice.passphrase)
    (hd : c.passphrase_session = some d) :
    GPG_OnEnter E c = Except.ok
      (GPG_afterCall { c with passphrase_session := some (recordCall E c d) }
        (readerCall E c d)) := by
  simp only [GPG_OnEnter, hsel, hd]

/-- The `GPG_OnEnter` that calls the reader of the key-file session. -/
theorem GPG_OnEnter_keyFile (E : Collaborators σ) (c : DecryptionContext σ)
    (d : DecryptionSession) (hsel : GPG_selectReader c = Except.ok ReaderChoice.keyFile)
    (hd : c.key_file_session = some d) :
    GPG_OnEnter E c = Except.ok
      (GPG_afterCall { c with key_file_session := some (recordCall E c d) }
        (readerCall E c d)) := by
  simp only [GPG_OnEnter, hsel, hd]

/-- C18: in every context where `GPG_CanEnter` is true, `GPG_OnEnter` returns
after exactly one reader call on the buffer: `Finish` when the input is at its
end and `Update` otherwise, on the reader of the passphrase session when the
format is `GPG` or `GPGOrNestedWad` or the format is `NestedWAD` with no pass
yet, on the reader of the key-file session otherwise; the other session is
untouched, the buffer holds what the call left, and the filter count is one
more than before, whatever the call produced and whether or not it threw. -/
theorem GPG_OnEnter_one_call (E : Collaborators σ) (c : DecryptionContext σ)
    (hadm : GPG_CanEnter c = Except.ok true) :
    ∃ c1, GPG_OnEnter E c = Except.ok c1 ∧
      c1.filter_count = c.filter_count + 1 ∧
      ((c.format = Format.GPG ∨ c.format = Format.GPGOrNestedWad ∨
          (c.format = Format.NestedWAD ∧ c.filter_count = 0)) →
        ∃ d, c.passphrase_session = some d ∧
          c1.passphrase_session = some { d with reader := d.reader ++
            [⟨E.IsEOF c.input, c.buffer,
              (if E.IsEOF c.input then E.Finish d c.buffer else E.Update d c.buffer).produced,
              (if E.IsEOF c.input then E.Finish d c.buffer else E.Update d c.buffer).error⟩] } ∧
          c1.key_file_session = c.key_file_session ∧
          c1.buffer =
            (if E.IsEOF c.input then E.Finish d c.buffer else E.Update d c.buffer).produced) ∧
      (¬ (c.format = Format.GPG ∨ c.format = Format.GPGOrNestedWad ∨
          (c.format = Format.NestedWAD ∧ c.filter_count = 0)) →
        ∃ d, c.key_file_session = some d ∧
          c1.key_file_session = some { d with reader := d.reader ++
            [⟨E.IsEOF c.input, c.buffer,
              (if E.IsEOF c.input then E.Finish d c.buffer else E.Update d c.buffer).produced,
              (if E.IsEOF c.input then E.Finish d c.buffer else E.Update d c.buffer).error⟩] } ∧
          c1.passphrase_session = c.passphrase_session ∧
          c1.buffer =
            (if E.IsEOF c.input then E.Finish d c.buffer else E.Update d c.buffer).produced) := by
  obtain ⟨hfc, hbuf, hcases⟩ := (GPG_CanEnter_true_iff c).1 hadm
  have hbuffer : ∀ (c2 : DecryptionContext σ) (o : ReaderOutcome),
      (GPG_afterCall c2 o).buffer = o.produced ∧
      (GPG_afterCall c2 o).filter_count = c2.filter_count + 1 ∧
      (GPG_afterCall c2 o).passphrase_session = c2.passphrase_session ∧
      (GPG_afterCall c2 o).key_file_session = c2.key_file_session := by
    intro c2 o
    unfold GPG_afterCall
    split <;> simp
  rcases hcases with ⟨hf, hp, h0⟩ | ⟨hf, hk, h0⟩ | ⟨hf, _, hk, h0⟩ | ⟨hf, hp, h1⟩
  · obtain ⟨d, hd⟩ := Option.isSome_iff_exists.1 hp
    have hsel : GPG_selectReader c = Except.ok ReaderChoice.passphrase := by
      rcases hf with hf | hf <;> simp [GPG_selectReader, hf, h0]
    refine ⟨_, GPG_OnEnter_passphrase E c d hsel hd, (hbuffer _ _).2.1, ?_, ?_⟩
    · intro _
      exact ⟨d, hd, (hbuffer _ _).2.2.1, (hbuffer _ _).2.2.2, (hbuffer _ _).1⟩
    · intro hn
      exact absurd (by rcases hf with hf | hf <;> simp [hf]) hn
  · obtain ⟨d, hd⟩ := Option.isSome_iff_exists.1 hk
    have hsel : GPG_selectReader c = Except.ok ReaderChoice.keyFile := by
      simp [GPG_selectReader, hf]
    refine ⟨_, GPG_OnEnter_keyFile E c d hsel hd, (hbuffer _ _).2.1, ?_, ?_⟩
    · intro hy
      simp [hf] at hy
    · intro _
      exact ⟨d, hd, (hbuffer _ _).2.2.2, (hbuffer _ _).2.2.1, (hbuffer _ _).1⟩
  · obtain ⟨d, hd⟩ := Option.isSome_iff_exists.1 hk
    have hsel : GPG_selectReader c = Except.ok ReaderChoice.keyFile := by
      simp [GPG_selectReader, hf]
    refine ⟨_, GPG_OnEnter_keyFile E c d hsel hd, (hbuffer _ _).2.1, ?_, ?_⟩
    · intro hy
      simp [hf] at hy
    · intro _
      exact ⟨d, hd, (hbuffer _ _).2.2.2, (hbuffer _ _).2.2.1, (hbuffer _ _).1⟩
  · by_cases hz : c.filter_count = 0
    · obtain ⟨d, hd⟩ := Option.isSome_iff_exists.1 hp
      have hsel : GPG_selectReader c = Except.ok ReaderChoice.passphrase := by
        simp [GPG_selectReader, hf, hz]
      refine ⟨_, GPG_OnEnter_passphrase E c d hsel hd, (hbuffer _ _).2.1, ?_, ?_⟩
      · intro _
        exact ⟨d, hd, (hbuffer _ _).2.2.1, (hbuffer _ _).2.2.2, (hbuffer _ _).1⟩
      · intro hn
        exact absurd (Or.inr (Or.inr ⟨hf, hz⟩)) hn
    · have h1' : c.filter_count = 1 := by omega
      obtain ⟨_, hk⟩ := h1 h1'
      obtain ⟨d, hd⟩ := Option.isSome_iff_exists.1 hk
      have hsel : GPG_selectReader c = Except.ok ReaderChoice.keyFile := by
        simp [GPG_selectReader, hf, h1']
      refine ⟨_, GPG_OnEnter_keyFile E c d hsel hd, (hbuffer _ _).2.1, ?_, ?_⟩
      · intro hy
        simp [hf, h1'] at hy
      · intro _
        exact ⟨d, hd, (hbuffer _ _).2.2.2, (hbuffer _ _).2.2.1, (hbuffer _ _).1⟩

/-- The witness of `GPG_OnEnter_one_call`: the context reached on the input
`FF 01 02`, where the reader call throws and the filter count still goes up. -/
theorem GPG_OnEnter_one_call_witness :
    ∃ c1, GPG_OnEnter sampleCollaborators sampleErrorContext = Except.ok c1 ∧
      c1.filter_count = 1 ∧ c1.failed = true ∧
      c1.passphrase_session = some { samplePassphraseSession with
        reader := [⟨true, [0xFF, 1, 2], [], some (PacketResult.Other 7)⟩] } := by
  obtain ⟨c1, h1, h2, h3, _⟩ :=
    GPG_OnEnter_one_call sampleCollaborators sampleErrorContext rfl
  obtain ⟨d, hd, hp, _, _⟩ := h3 (Or.inr (Or.inl rfl))
  have hd2 : d = samplePassphraseSession := by
    have : some samplePassphraseSession = some d := hd
    injection this with this
    exact this.symm
  subst hd2
  refine ⟨c1, h1, h2, ?_, hp⟩
  have h4 : GPG_OnEnter sampleCollaborators sampleErrorContext =
      Except.ok (GPG_afterCall
        { sampleErrorContext with
          passphrase_session := some (recordCall sampleCollaborators sampleErrorContext
            samplePassphraseSession) }
        (readerCall sampleCollaborators sampleErrorContext samplePassphraseSession)) := rfl
  rw [h4] at h1
  injection h1 with h1
  rw [← h1]
  rfl

/-- With at most one filter pass, in a context where it is admissible,
`ParseFormat_OnEnter` returns and keeps the staged bytes: all in the pending
buffer with the format unchanged when it defers, all in the buffer when it
decides. -/
theorem ParseFormat_OnEnter_keeps_of_le (E : Collaborators σ) (c : DecryptionContext σ)
    (hadm : ParseFormat_CanEnter c = true) (hfc : c.filter_count ≤ 1) :
    ∃ c1, ParseFormat_OnEnter E c = Except.ok c1 ∧
      c1.pending_buffer ++ c1.buffer = c.pending_buffer ++ c.buffer ∧
      (((c.pending_buffer ++ c.buffer).length < (if c.filter_count = 1 then 4 else 1) ∧
          E.IsEOF c.input = false) →
        c1.pending_buffer = c.pending_buffer ++ c.buffer ∧ c1.buffer = [] ∧
        c1.format = c.format) ∧
      (¬ ((c.pending_buffer ++ c.buffer).length < (if c.filter_count = 1 then 4 else 1) ∧
          E.IsEOF c.input = false) →
        c1.buffer = c.pending_buffer ++ c.buffer ∧ c1.pending_buffer = []) := by
  have hne : c.pending_buffer ++ c.buffer ≠ [] := by
    intro h
    obtain ⟨h1, h2⟩ := List.append_eq_nil.1 h
    cases hf : c.format <;> simp [ParseFormat_CanEnter, hf, h1, h2] at hadm
  by_cases hd : (c.pending_buffer ++ c.buffer).length < (if c.filter_count = 1 then 4 else 1) ∧
      E.IsEOF c.input = false
  · have hdef : ParseFormat_OnEnter E c = Except.ok (stage c) :=
      ParseFormat_OnEnter_defer E c (by simpa using hd.1) hd.2
    refine ⟨stage c, hdef, ?_, fun _ => ⟨rfl, rfl, rfl⟩, fun h => absurd hd h⟩
    simp [stage]
  · rcases Nat.lt_or_ge c.filter_count 1 with h0 | h1
    · have h0 : c.filter_count = 0 := by omega
      obtain ⟨b, rest, hb⟩ := List.exists_cons_of_ne_nil hne
      refine ⟨_, ParseFormat_OnEnter_first E c b rest h0 hb, ?_,
        fun h => absurd h hd, fun _ => ⟨hb.symm, rfl⟩⟩
      simp [hb]
    · have h1 : c.filter_count = 1 := by omega
      have hdec : 4 ≤ (c.pending_buffer ++ c.buffer).length ∨ E.IsEOF c.input = true := by
        rw [h1] at hd
        simp only [if_true, not_and] at hd
        by_cases h4 : (c.pending_buffer ++ c.buffer).length < 4
        · right
          cases he : E.IsEOF c.input
          · exact absurd he (hd h4)
          · rfl
        · left; omega
      refine ⟨_, ParseFormat_OnEnter_second E c h1 hdec, ?_,
        fun h => absurd h hd, fun _ => ⟨rfl, rfl⟩⟩
      simp

/-! ## Sessions along a run -/

/-- A slot left as it is keeps its session. -/
theorem SessionKept.same (s : Option DecryptionSession) : SessionKept s s :=
  fun d h => ⟨d, h, rfl, rfl, rfl, List.prefix_refl _⟩

/-- An empty slot keeps its session, whatever comes next. -/
theorem SessionKept.of_none (s1 : Option DecryptionSession) : SessionKept none s1 :=
  fun _ h => by cases h

/-- A reader call keeps the session it is made on. -/
theorem SessionKept.of_recordCall (E : Collaborators σ) (c : DecryptionContext σ)
    (d : DecryptionSession) : SessionKept (some d) (some (recordCall E c d)) := by
  intro d0 h
  injection h with h
  subst h
  exact ⟨_, rfl, rfl, rfl, rfl, List.prefix_append _ _⟩

/-- The sessions after `GPG_OnEnter`: the one whose reader was called has the
call recorded, the other is as it was. -/
theorem GPG_OnEnter_sessions (E : Collaborators σ) (c c1 : DecryptionContext σ)
    (h : GPG_OnEnter E c = Except.ok c1) :
    SessionKept c.passphrase_session c1.passphrase_session ∧
    SessionKept c.key_file_session c1.key_file_session := by
  have hafter : ∀ (c2 : DecryptionContext σ) (o : ReaderOutcome),
      (GPG_afterCall c2 o).passphrase_session = c2.passphrase_session ∧
      (GPG_afterCall c2 o).key_file_session = c2.key_file_session := by
    intro c2 o
    unfold GPG_afterCall
    split <;> simp
  unfold GPG_OnEnter at h
  split at h
  · cases h
  · split at h
    · cases h
    · next d hd =>
      cases h
      rw [(hafter _ _).1, (hafter _ _).2, hd]
      exact ⟨SessionKept.of_recordCall E c d, SessionKept.same _⟩
  · split at h
    · cases h
    · next d hd =>
      cases h
      rw [(hafter _ _).1, (hafter _ _).2, hd]
      exact ⟨SessionKept.same _, SessionKept.of_recordCall E c d⟩

/-- No admissible handler removes or replaces a session. -/
theorem session_kept_step (E : Collaborators σ) (c c1 : DecryptionContext σ)
    (hs : Step E c c1) :
    SessionKept c.passphrase_session c1.passphrase_session ∧
    SessionKept c.key_file_session c1.key_file_session := by
  obtain ⟨s, hcan, hon⟩ := hs
  cases s
  case Fail =>
    simp only [OnEnter, Fail_OnEnter, Except.ok.injEq] at hon; subst hon
    exact ⟨SessionKept.same _, SessionKept.same _⟩
  case End =>
    simp only [OnEnter, End_OnEnter, Except.ok.injEq] at hon; subst hon
    exact ⟨SessionKept.same _, SessionKept.same _⟩
  case WriteOut =>
    simp only [OnEnter, WriteOut_OnEnter, Except.ok.injEq] at hon; subst hon
    exact ⟨SessionKept.same _, SessionKept.same _⟩
  case Decrypt => exact GPG_OnEnter_sessions E c c1 hon
  case SetPassphraseSession =>
    simp only [OnEnter, SetPwdKey_OnEnter, Except.ok.injEq] at hon
    simp only [CanEnter, Except.ok.injEq] at hcan
    have hnone : c.passphrase_session = none := by
      cases hfmt : c.format <;> simp [SetPwdKey_CanEnter, hfmt] at hcan <;> exact hcan
    subst hon
    rw [hnone]
    exact ⟨SessionKept.of_none _, SessionKept.same _⟩
  case ReadKeyFile =>
    simp only [OnEnter, Except.ok.injEq] at hon
    simp only [CanEnter, Except.ok.injEq] at hcan
    have hnone : c.key_file_session = none := by
      cases hk : c.key_file_session
      · rfl
      · simp [ReadKeyFile_CanEnter, hk] at hcan
    obtain ⟨_, _, _, _, _, e6, _⟩ := ReadKeyFile_OnEnter_effect E c hnone
    subst hon
    rw [e6, hnone]
    exact ⟨SessionKept.same _, SessionKept.of_none _⟩
  case WADHead =>
    obtain ⟨_, _, _, _, e5, e6, _⟩ := WADHead_OnEnter_frame E c c1 hon
    rw [e5, e6]
    exact ⟨SessionKept.same _, SessionKept.same _⟩
  case ParseFormat =>
    obtain ⟨_, _, _, e4, e5, _⟩ := ParseFormat_OnEnter_frame E c c1 hon
    rw [e4, e5]
    exact ⟨SessionKept.same _, SessionKept.same _⟩
  case ReadIn =>
    simp only [OnEnter, ReadIn_OnEnter, Except.ok.injEq] at hon; subst hon
    exact ⟨SessionKept.same _, SessionKept.same _⟩

/-- Along slots that keep their session, a session is constructed at most
once, and not at all when it is present from the start. -/
theorem constructions_le_one (s : Option DecryptionSession)
    (l : List (Option DecryptionSession)) (h : List.Chain SessionKept s l) :
    constructions s l ≤ 1 ∧ (s.isSome = true → constructions s l = 0) := by
  induction l generalizing s with
  | nil => simp [constructions]
  | cons s1 rest ih =>
    obtain ⟨hk, hrest⟩ := List.chain_cons.1 h
    obtain ⟨ih1, ih2⟩ := ih s1 hrest
    cases hs : s with
    | none =>
      cases hs1 : s1 with
      | none =>
        rw [hs1] at ih1
        simp only [constructions, Option.isNone_none, Option.isSome_none, Bool.and_false,
          Bool.false_eq_true, if_false, Nat.zero_add]
        exact ⟨ih1, fun h => by cases h⟩
      | some d1 =>
        have := ih2 (by rw [hs1]; rfl)
        rw [hs1] at this
        simp only [constructions, Option.isNone_none, Option.isSome_some, Bool.and_self,
          if_true, this]
        exact ⟨Nat.le_refl _, fun h => by cases h⟩
    | some d =>
      obtain ⟨d1, hd1, _⟩ := hk d hs
      have := ih2 (by rw [hd1]; rfl)
      rw [hd1] at this
      simp only [constructions, hd1, Option.isNone_some, Bool.false_and, Bool.false_eq_true,
        if_false, Nat.zero_add, this]
      exact ⟨Nat.zero_le _, fun _ => trivial⟩

/-- The contexts of the steps of the dispatcher follow one another by
admissible handlers. -/
theorem history_chain (E : Collaborators σ) (n : Nat) :
    ∀ c0 : DecryptionContext σ,
      List.Chain (Step E) c0 ((history E n c0).map Prod.snd) := by
  induction n with
  | zero => intro c0; simp [history]
  | succ k ih =>
    intro c0
    unfold history
    split
    · next s hn =>
      split
      · next c1 ho =>
        have hstep := nextState_step E c0 c1 s hn ho
        split
        · simpa using hstep
        · simp only [List.map_cons, List.chain_cons]
          exact ⟨hstep, ih c1⟩
      · simp
    · simp

/-- C14: along every run, that is every sequence of contexts that follow one
another by admissible handlers, the passphrase session is constructed at most
once and the key-file session at most once. `SetPassphraseSession` and
`ReadKeyFile` are admissible only while their session is absent, and no
admissible handler removes or replaces a session that is present: it stays,
built from the same key service and passphrases, its reader only called
further. -/
theorem sessions_constructed_once (E : Collaborators σ) (c0 : DecryptionContext σ)
    (l : List (DecryptionContext σ)) (hrun : List.Chain (Step E) c0 l) :
    constructions c0.passphrase_session (l.map (fun c => c.passphrase_session)) ≤ 1 ∧
    constructions c0.key_file_session (l.map (fun c => c.key_file_session)) ≤ 1 ∧
    (∀ c : DecryptionContext σ,
      (SetPwdKey_CanEnter c = true → c.passphrase_session = none) ∧
      (ReadKeyFile_CanEnter c = true → c.key_file_session = none)) ∧
    (∀ c c1 : DecryptionContext σ, Step E c c1 →
      SessionKept c.passphrase_session c1.passphrase_session ∧
      SessionKept c.key_file_session c1.key_file_session) := by
  have hchain : ∀ (l : List (DecryptionContext σ)) (c0 : DecryptionContext σ),
      List.Chain (Step E) c0 l →
      List.Chain SessionKept c0.passphrase_session (l.map (fun c => c.passphrase_session)) ∧
      List.Chain SessionKept c0.key_file_session (l.map (fun c => c.key_file_session)) := by
    intro l
    induction l with
    | nil => intro c0 _; exact ⟨List.Chain.nil, List.Chain.nil⟩
    | cons c1 rest ih =>
      intro c0 h
      obtain ⟨h1, h2⟩ := List.chain_cons.1 h
      obtain ⟨k1, k2⟩ := session_kept_step E c0 c1 h1
      obtain ⟨i1, i2⟩ := ih c1 h2
      exact ⟨List.Chain.cons k1 i1, List.Chain.cons k2 i2⟩
  obtain ⟨hp, hk⟩ := hchain l c0 hrun
  refine ⟨(constructions_le_one _ _ hp).1, (constructions_le_one _ _ hk).1, ?_,
    fun c c1 hs => session_kept_step E c c1 hs⟩
  intro c
  constructor
  · intro h
    cases hfmt : c.format <;> simp [SetPwdKey_CanEnter, hfmt] at h <;> exact h
  · intro h
    cases hk : c.key_file_session
    · rfl
    · simp [ReadKeyFile_CanEnter, hk] at h

/-- The witness of `sessions_constructed_once`: the ten steps of the dispatcher
on the nested sample input, which construct both sessions. -/
theorem sessions_constructed_once_witness :
    constructions none
      (((history sampleCollaborators 10
        (initialContext sampleNestedInput ⟨[], false⟩ sampleParams)).map Prod.snd).map
          (fun c => c.passphrase_session)) ≤ 1 ∧
    constructions none
      (((history sampleCollaborators 10
        (initialContext sampleNestedInput ⟨[], false⟩ sampleParams)).map Prod.snd).map
          (fun c => c.key_file_session)) ≤ 1 :=
  let h := sessions_constructed_once sampleCollaborators
    (initialContext sampleNestedInput ⟨[], false⟩ sampleParams) _
    (history_chain sampleCollaborators 10 _)
  ⟨h.1, h.2.1⟩

/-! ## The pending buffer along a run -/

/-- Only `ParseFormat` and `WADHead` touch the pending buffer. -/
theorem pending_frame (E : Collaborators σ) (c c1 : DecryptionContext σ) (s : StateId)
    (h1 : s ≠ StateId.ParseFormat) (h2 : s ≠ StateId.WADHead)
    (hon : OnEnter E s c = Except.ok c1) :
    c1.pending_buffer = c.pending_buffer := by
  cases s
  case ParseFormat => exact absurd rfl h1
  case WADHead => exact absurd rfl h2
  case Fail => simp only [OnEnter, Fail_OnEnter, Except.ok.injEq] at hon; subst hon; rfl
  case End => simp only [OnEnter, End_OnEnter, Except.ok.injEq] at hon; subst hon; rfl
  case WriteOut =>
    simp only [OnEnter, WriteOut_OnEnter, Except.ok.injEq] at hon; subst hon; rfl
  case Decrypt => exact (GPG_OnEnter_effect E c c1 hon).2.2.2.2.1
  case SetPassphraseSession =>
    simp only [OnEnter, SetPwdKey_OnEnter, Except.ok.injEq] at hon; subst hon; rfl
  case ReadKeyFile =>
    simp only [OnEnter, Except.ok.injEq] at hon
    subst hon
    unfold ReadKeyFile_OnEnter
    simp only
    split
    · rfl
    · split
      · rfl
      · split <;> rfl
  case ReadIn => simp only [OnEnter, ReadIn_OnEnter, Except.ok.injEq] at hon; subst hon; rfl

/-- After `ParseFormat_OnEnter` the pending buffer is empty, unless it
deferred with the input not at its end. -/
theorem ParseFormat_OnEnter_pending (E : Collaborators σ) (c c1 : DecryptionContext σ)
    (h : ParseFormat_OnEnter E c = Except.ok c1) :
    c1.pending_buffer = [] ∨ (c1 = stage c ∧ E.IsEOF c.input = false) := by
  unfold ParseFormat_OnEnter at h
  simp only at h
  generalize (if (c.filter_count == 1) = true then 4 else 1) = req at h
  by_cases hd : (decide ((c.pending_buffer ++ c.buffer).length < req) && !E.IsEOF c.input) = true
  · rw [if_pos hd] at h
    right
    cases h
    refine ⟨rfl, ?_⟩
    simp only [Bool.and_eq_true, Bool.not_eq_true', decide_eq_true_eq] at hd
    exact hd.2
  · rw [if_neg hd] at h
    left
    by_cases hfc : (c.filter_count == 0) = true
    · rw [if_pos hfc] at h
      split at h
      · cases h
      · cases h; rfl
    · rw [if_neg hfc] at h
      by_cases hfc1 : (c.filter_count == 1) = true
      · rw [if_pos hfc1] at h
        cases h; rfl
      · rw [if_neg hfc1] at h
        cases h

/-- After `WADHead_OnEnter` the pending buffer is empty, unless it deferred
with the input not at its end, or failed. -/
theorem WADHead_OnEnter_pending (E : Collaborators σ) (c c1 : DecryptionContext σ)
    (h : WADHead_OnEnter E c = Except.ok c1) :
    c1.pending_buffer = [] ∨ (c1 = stage c ∧ E.IsEOF c.input = false) ∨
      c1.failed = true := by
  unfold WADHead_OnEnter at h
  simp only at h
  split at h
  · split at h
    · cases h
    · cases h; exact Or.inl rfl
  · split at h
    · cases h; exact Or.inr (Or.inr rfl)
    · next he =>
      cases h
      refine Or.inr (Or.inl ⟨rfl, ?_⟩)
      simpa using he
  · cases h; exact Or.inr (Or.inr rfl)

/-- A context that has failed is one where the dispatcher enters `Fail`. -/
theorem nextState_Fail (E : Collaborators σ) (c : DecryptionContext σ)
    (h : c.failed = true) : nextState E c = Except.ok (some StateId.Fail) := by
  simp [nextState, stateOrder, firstMatch, CanEnter, Fail_CanEnter, h]

/-- After a deferral of `ParseFormat` the dispatcher enters `ParseFormat`
again. -/
theorem nextState_stage_ParseFormat (E : Collaborators σ) (c : DecryptionContext σ)
    (he : E.IsEOF c.input = false)
    (hn : nextState E c = Except.ok (some StateId.ParseFormat)) :
    nextState E (stage c) = Except.ok (some StateId.ParseFormat) := by
  obtain ⟨h1, h2, h3, h4, h5, h6, h7, h8⟩ := (nextState_ParseFormat E c).1 hn
  obtain ⟨g1, g2, g3, g4, g5, g6, _⟩ :=
    deferral_keeps_earlier_states E c he ⟨h1, h2, h3, h4, h5, h6⟩
  refine (nextState_ParseFormat E _).2 ⟨g1, g2, g3, g4, g5, g6, ?_, ?_⟩
  · rw [WADHead_CanEnter_stage]; exact h7
  · rw [ParseFormat_CanEnter_stage]; exact h8

/-- After a deferral of `WADHead` the dispatcher enters `WADHead` again. -/
theorem nextState_stage_WADHead (E : Collaborators σ) (c : DecryptionContext σ)
    (he : E.IsEOF c.input = false)
    (hn : nextState E c = Except.ok (some StateId.WADHead)) :
    nextState E (stage c) = Except.ok (some StateId.WADHead) := by
  obtain ⟨h1, h2, h3, h4, h5, h6, h7⟩ := (nextState_WADHead E c).1 hn
  obtain ⟨g1, g2, g3, g4, g5, g6, _⟩ :=
    deferral_keeps_earlier_states E c he ⟨h1, h2, h3, h4, h5, h6⟩
  refine (nextState_WADHead E _).2 ⟨g1, g2, g3, g4, g5, g6, ?_⟩
  rw [WADHead_CanEnter_stage]; exact h7

/-- C15, refuted as stated: on a WAD container cut short after seven bytes the
dispatcher enters `ReadIn`, `ParseFormat`, `WADHead` and `Fail`; `WADHead`
fails at end of input with the seven bytes staged, and after the `Fail` step,
whose state is neither `ParseFormat` nor `WADHead`, the pending buffer still
holds them. -/
theorem pending_not_empty_after_Fail :
    (history sampleCollaborators 4
      (initialContext sampleTruncatedWadInput ⟨[], false⟩ sampleParams)).map
        (fun p => (p.1, p.2.pending_buffer, p.2.result)) =
      [(StateId.ReadIn, [], PacketResult.Success),
       (StateId.ParseFormat, [], PacketResult.Success),
       (StateId.WADHead, sampleTruncatedWadInput, PacketResult.InvalidOrIncompleteWadFile),
       (StateId.Fail, sampleTruncatedWadInput, PacketResult.InvalidOrIncompleteWadFile)] := by
  rfl

/-! ## Assertions and admissible states in the reachable contexts -/

/-- A session that is kept and was present is present. -/
theorem SessionKept.isSome {s s1 : Option DecryptionSession} (h : SessionKept s s1)
    (hs : s.isSome = true) : s1.isSome = true := by
  obtain ⟨d, hd⟩ := Option.isSome_iff_exists.1 hs
  obtain ⟨d1, hd1, _⟩ := h d hd
  rw [hd1]; rfl

/-- A handler that leaves the format alone, leaves the filter count alone or
resets it, and keeps the passphrase session, keeps `SafeInv`. -/
theorem SafeInv_of_frame (c c1 : DecryptionContext σ) (hi : SafeInv c)
    (hfmt : c1.format = c.format)
    (hfc : c1.filter_count = c.filter_count ∨ c1.filter_count = 0)
    (hp : c.passphrase_session.isSome = true → c1.passphrase_session.isSome = true) :
    SafeInv c1 := by
  obtain ⟨i1, i2, i3, i4⟩ := hi
  refine ⟨by rw [hfmt]; exact i1, ?_, ?_, ?_⟩
  · intro h
    rw [hfmt] at h
    rcases hfc with h1 | h1
    · rw [h1]; exact i2 h
    · exact h1
  · intro h hne
    rw [hfmt] at h
    rcases hfc with h1 | h1
    · exact hp (i3 h (by rw [← h1]; exact hne))
    · exact absurd h1 hne
  · intro h
    rw [hfmt] at h
    exact hp (i4 h)

/-- Every admissible handler keeps `SafeInv`. -/
theorem SafeInv_step (E : Collaborators σ) (c c1 : DecryptionContext σ)
    (hi : SafeInv c) (hs : Step E c c1) : SafeInv c1 := by
  have hkept := (session_kept_step E c c1 hs).1
  obtain ⟨s, hcan, hon⟩ := hs
  cases s
  case Fail =>
    simp only [OnEnter, Fail_OnEnter, Except.ok.injEq] at hon; subst hon; exact hi
  case End =>
    simp only [OnEnter, End_OnEnter, Except.ok.injEq] at hon; subst hon; exact hi
  case WriteOut =>
    simp only [OnEnter, WriteOut_OnEnter, Except.ok.injEq] at hon; subst hon; exact hi
  case SetPassphraseSession =>
    apply SafeInv_of_frame c c1 hi _ _ hkept.isSome
    · simp only [OnEnter, SetPwdKey_OnEnter, Except.ok.injEq] at hon; subst hon; rfl
    · simp only [OnEnter, SetPwdKey_OnEnter, Except.ok.injEq] at hon; subst hon
      exact Or.inl rfl
  case ReadKeyFile =>
    simp only [CanEnter, Except.ok.injEq] at hcan
    have hnone : c.key_file_session = none := by
      cases hk : c.key_file_session
      · rfl
      · simp [ReadKeyFile_CanEnter, hk] at hcan
    obtain ⟨e1, e2, _⟩ := ReadKeyFile_OnEnter_effect E c hnone
    simp only [OnEnter, Except.ok.injEq] at hon
    subst hon
    exact SafeInv_of_frame c _ hi e1 (Or.inl e2) hkept.isSome
  case WADHead =>
    obtain ⟨e1, e2, _⟩ := WADHead_OnEnter_frame E c c1 hon
    exact SafeInv_of_frame c c1 hi e2 (Or.inl e1) hkept.isSome
  case ReadIn =>
    apply SafeInv_of_frame c c1 hi _ _ hkept.isSome
    · simp only [OnEnter, ReadIn_OnEnter, Except.ok.injEq] at hon; subst hon; rfl
    · simp only [OnEnter, ReadIn_OnEnter, Except.ok.injEq] at hon; subst hon
      exact Or.inr rfl
  case Decrypt =>
    obtain ⟨_, e2, e3, _⟩ := GPG_OnEnter_effect E c c1 hon
    obtain ⟨_, _, hcases⟩ := (GPG_CanEnter_true_iff c).1 hcan
    obtain ⟨i1, _, _, _⟩ := hi
    refine ⟨by rw [e3]; exact i1, ?_, ?_, ?_⟩
    · intro h
      rw [e3] at h
      rcases hcases with ⟨hf | hf, _⟩ | ⟨hf, _⟩ | ⟨hf, _⟩ | ⟨hf, _⟩ <;> rw [h] at hf <;>
        cases hf
    · intro h _
      rw [e3] at h
      rcases hcases with ⟨_, hp, _⟩ | ⟨hf, _⟩ | ⟨hf, _⟩ | ⟨hf, _⟩
      · exact hkept.isSome hp
      all_goals (rw [h] at hf; cases hf)
    · intro h
      rw [e3] at h
      rcases hcases with ⟨hf | hf, _⟩ | ⟨hf, _⟩ | ⟨hf, _⟩ | ⟨_, hp, _⟩
      · rw [h] at hf; cases hf
      · rw [h] at hf; cases hf
      · rw [h] at hf; cases hf
      · rw [h] at hf; cases hf
      · exact hkept.isSome hp
  case ParseFormat =>
    obtain ⟨e1, _, _, e4, _⟩ := ParseFormat_OnEnter_frame E c c1 hon
    simp only [CanEnter, Except.ok.injEq] at hcan
    rcases ParseFormat_OnEnter_cases E c c1 hon with ⟨d1, _, _⟩ | ⟨_, _, d3⟩
    · exact SafeInv_of_frame c c1 hi d1 (Or.inl e1) (by rw [e4]; exact id)
    · obtain ⟨_, i2, i3, _⟩ := hi
      rcases d3 with ⟨h0, d | d | d⟩ | ⟨h1, d | d⟩
      · refine ⟨by rw [d]; decide, ?_, ?_, ?_⟩ <;> intro h <;> rw [d] at h <;> cases h
      · refine ⟨by rw [d]; decide, ?_, ?_, ?_⟩
        · intro h; rw [d] at h; cases h
        · intro _ hne; rw [e1] at hne; exact absurd h0 hne
        · intro h; rw [d] at h; cases h
      · refine ⟨by rw [d]; decide, ?_, ?_, ?_⟩ <;> intro h <;> rw [d] at h <;> cases h
      · have hfmt : c.format = Format.GPGOrNestedWad := by
          cases hf : c.format <;> simp [ParseFormat_CanEnter, hf] at hcan
          · have := i2 hf; omega
          · rfl
        refine ⟨by rw [d]; decide, ?_, ?_, ?_⟩
        · intro h; rw [d] at h; cases h
        · intro h; rw [d] at h; cases h
        · intro _
          rw [e4]
          exact i3 hfmt (by omega)
      · refine ⟨by rw [d]; decide, ?_, ?_, ?_⟩ <;> intro h <;> rw [d] at h <;> cases h

/-- Every context reachable from an initial context has `SafeInv` and the
bound on the filter count. -/
theorem reachable_inv (E : Collaborators σ) (c0 c : DecryptionContext σ)
    (h0 : IsInitial c0) (hr : Reachable E c0 c) :
    SafeInv c ∧ c.filter_count ≤ 2 ∧ (c.filter_count = 2 → c.format = Format.NestedWAD) := by
  induction hr with
  | start =>
    obtain ⟨f1, f2, _⟩ := h0
    refine ⟨⟨by rw [f1]; decide, fun _ => f2, ?_, ?_⟩, by rw [f2]; omega, ?_⟩
    · intro h; rw [f1] at h; cases h
    · intro h; rw [f1] at h; cases h
    · intro h; rw [f2] at h; cases h
  | next _ hs ih =>
    exact ⟨SafeInv_step E _ _ ih.1 hs, filter_count_step E _ _ ih.2 hs⟩

/-- In a context where `ParseFormat` is admissible some byte is staged. -/
theorem ParseFormat_CanEnter_staged (c : DecryptionContext σ)
    (hadm : ParseFormat_CanEnter c = true) : c.pending_buffer ++ c.buffer ≠ [] := by
  intro h
  obtain ⟨h1, h2⟩ := List.append_eq_nil.1 h
  cases hf : c.format <;> simp [ParseFormat_CanEnter, hf, h1, h2] at hadm

/-- With a staged byte and at most one filter pass, `ParseFormat_OnEnter`
returns. -/
theorem ParseFormat_OnEnter_returns (E : Collaborators σ) (c : DecryptionContext σ)
    (hne : c.pending_buffer ++ c.buffer ≠ []) (hfc : c.filter_count ≤ 1) :
    ∃ c1, ParseFormat_OnEnter E c = Except.ok c1 := by
  rcases Nat.lt_or_ge c.filter_count 1 with h0 | h1
  · obtain ⟨b, rest, hb⟩ := List.exists_cons_of_ne_nil hne
    exact ⟨_, ParseFormat_OnEnter_first E c b rest (by omega) hb⟩
  · have h1 : c.filter_count = 1 := by omega
    by_cases hd : 4 ≤ (c.pending_buffer ++ c.buffer).length ∨ E.IsEOF c.input = true
    · exact ⟨_, ParseFormat_OnEnter_second E c h1 hd⟩
    · have hlt : (c.pending_buffer ++ c.buffer).length < 4 := by
        by_contra h; exact hd (Or.inl (by omega))
      have he : E.IsEOF c.input = false := by
        cases h : E.IsEOF c.input
        · rfl
        · exact absurd (Or.inr h) hd
      exact ⟨_, ParseFormat_OnEnter_defer E c (by simpa [h1] using hlt) he⟩

/-- In a context where `GPG_CanEnter` is true, the session whose reader
`GPG_OnEnter` selects is present, the assertion on the filter count holds, and
`GPG_OnEnter` returns. -/
theorem GPG_OnEnter_returns (E : Collaborators σ) (c : DecryptionContext σ)
    (hadm : GPG_CanEnter c = Except.ok true) :
    ((GPG_selectReader c = Except.ok ReaderChoice.passphrase ∧
        c.passphrase_session.isSome = true) ∨
     (GPG_selectReader c = Except.ok ReaderChoice.keyFile ∧
        c.key_file_session.isSome = true)) ∧
    ∃ c1, GPG_OnEnter E c = Except.ok c1 := by
  obtain ⟨hfc, _, hcases⟩ := (GPG_CanEnter_true_iff c).1 hadm
  have hsel : (GPG_selectReader c = Except.ok ReaderChoice.passphrase ∧
        c.passphrase_session.isSome = true) ∨
     (GPG_selectReader c = Except.ok ReaderChoice.keyFile ∧
        c.key_file_session.isSome = true) := by
    rcases hcases with ⟨hf, hp, h0⟩ | ⟨hf, hk, _⟩ | ⟨hf, _, hk, _⟩ | ⟨hf, hp, h1⟩
    · left
      rcases hf with hf | hf <;> simp [GPG_selectReader, hf, h0, hp]
    · right; simp [GPG_selectReader, hf, hk]
    · right; simp [GPG_selectReader, hf, hk]
    · by_cases hz : c.filter_count = 0
      · left; simp [GPG_selectReader, hf, hz, hp]
      · right
        have h1' : c.filter_count = 1 := by omega
        simp [GPG_selectReader, hf, h1', (h1 h1').2]
  refine ⟨hsel, ?_⟩
  rcases hsel with ⟨hs, hp⟩ | ⟨hs, hk⟩
  · obtain ⟨d, hd⟩ := Option.isSome_iff_exists.1 hp
    exact ⟨_, GPG_OnEnter_passphrase E c d hs hd⟩
  · obtain ⟨d, hd⟩ := Option.isSome_iff_exists.1 hk
    exact ⟨_, GPG_OnEnter_keyFile E c d hs hd⟩

/-- C19: in every context reachable from an initial context by admissible
handlers the assertions and unchecked accesses of the handlers hold. When
`ParseFormat` is admissible the filter count is 0 or 1, a byte is staged for
the first-stage read, and `ParseFormat_OnEnter` returns. When the format is
`NestedWAD` a passphrase session is present, so `GPG_CanEnter` answers without
failing its assertion. When `GPG_CanEnter` is true, the session whose reader
`GPG_OnEnter` dereferences is present, the filter count is 0 for the formats
`GPG` and `GPGOrNestedWad`, and `GPG_OnEnter` returns. -/
theorem assertions_hold (E : Collaborators σ) (c0 c : DecryptionContext σ)
    (h0 : IsInitial c0) (hr : Reachable E c0 c) :
    (ParseFormat_CanEnter c = true →
      (c.filter_count = 0 ∨ c.filter_count = 1) ∧ c.pending_buffer ++ c.buffer ≠ [] ∧
      ∃ c1, ParseFormat_OnEnter E c = Except.ok c1) ∧
    (c.format = Format.NestedWAD → c.passphrase_session.isSome = true) ∧
    (∃ b, GPG_CanEnter c = Except.ok b) ∧
    (GPG_CanEnter c = Except.ok true →
      ((GPG_selectReader c = Except.ok ReaderChoice.passphrase ∧
          c.passphrase_session.isSome = true) ∨
       (GPG_selectReader c = Except.ok ReaderChoice.keyFile ∧
          c.key_file_session.isSome = true)) ∧
      ((c.format = Format.GPG ∨ c.format = Format.GPGOrNestedWad) →
        c.filter_count = 0) ∧
      ∃ c1, GPG_OnEnter E c = Except.ok c1) := by
  obtain ⟨⟨_, i2, _, i4⟩, _, _⟩ := reachable_inv E c0 c h0 hr
  refine ⟨?_, i4, ?_, ?_⟩
  · intro hadm
    have hfc : c.filter_count = 0 ∨ c.filter_count = 1 := by
      cases hf : c.format <;> simp [ParseFormat_CanEnter, hf] at hadm
      · exact Or.inl (i2 hf)
      · exact Or.inr hadm.1
    have hne := ParseFormat_CanEnter_staged c hadm
    exact ⟨hfc, hne, ParseFormat_OnEnter_returns E c hne (by omega)⟩
  · cases h : GPG_CanEnter c with
    | ok b => exact ⟨b, rfl⟩
    | error f =>
      obtain ⟨_, hf, _, hp⟩ := (GPG_CanEnter_fault_iff c f).1 h
      have := i4 hf
      rw [hp] at this
      cases this
  · intro hadm
    obtain ⟨hsel, hret⟩ := GPG_OnEnter_returns E c hadm
    refine ⟨hsel, ?_, hret⟩
    intro hf
    obtain ⟨_, _, hcases⟩ := (GPG_CanEnter_true_iff c).1 hadm
    rcases hcases with ⟨_, _, h⟩ | ⟨h, _⟩ | ⟨h, _⟩ | ⟨h, _⟩
    · exact h
    all_goals (rcases hf with hf | hf <;> rw [hf] at h <;> cases h)

/-- The witness of `assertions_hold`: the context after the first `ReadIn` of
the nested sample run, where `ParseFormat` is admissible. -/
theorem assertions_hold_witness :
    (ReadIn_OnEnter sampleCollaborators
      (initialContext sampleNestedInput ⟨[], false⟩ sampleParams)).filter_count = 0 ∨
    (ReadIn_OnEnter sampleCollaborators
      (initialContext sampleNestedInput ⟨[], false⟩ sampleParams)).filter_count = 1 :=
  ((assertions_hold sampleCollaborators
    (initialContext sampleNestedInput ⟨[], false⟩ sampleParams) _
    (initialContext_isInitial _ _ _)
    (Reachable.next Reachable.start ⟨StateId.ReadIn, rfl, rfl⟩)).1 rfl).1

/-- C20: no wedged configuration is reachable. In every context reachable from
an initial context by admissible handlers the admission predicate of some
state is true; and when the buffer is not empty and the context has not
failed, that of some state other than `ReadIn`. -/
theorem some_state_admissible (E : Collaborators σ) (c0 c : DecryptionContext σ)
    (h0 : IsInitial c0) (hr : Reachable E c0 c) :
    (∃ s, CanEnter E s c = Except.ok true) ∧
    (c.buffer ≠ [] → c.failed = false →
      ∃ s, s ≠ StateId.ReadIn ∧ CanEnter E s c = Except.ok true) := by
  obtain ⟨⟨i1, _, _, i4⟩, i5, i6⟩ := reachable_inv E c0 c h0 hr
  have hsecond : c.buffer ≠ [] → c.failed = false →
      ∃ s, s ≠ StateId.ReadIn ∧ CanEnter E s c = Except.ok true := by
    intro hb _
    have hlen : c.buffer.length ≠ 0 := fun h => hb (List.length_eq_zero.1 h)
    have hpos : 0 < c.buffer.length := Nat.pos_of_ne_zero hlen
    have hdecrypt : ∀ h : GPG_CanEnter c = Except.ok true,
        ∃ s, s ≠ StateId.ReadIn ∧ CanEnter E s c = Except.ok true :=
      fun h => ⟨StateId.Decrypt, by decide, h⟩
    have hwrite : ∀ h : WriteOut_CanEnter c = true,
        ∃ s, s ≠ StateId.ReadIn ∧ CanEnter E s c = Except.ok true :=
      fun h => ⟨StateId.WriteOut, by decide, by simp [CanEnter, h]⟩
    have hsetpwd : ∀ h : SetPwdKey_CanEnter c = true,
        ∃ s, s ≠ StateId.ReadIn ∧ CanEnter E s c = Except.ok true :=
      fun h => ⟨StateId.SetPassphraseSession, by decide, by simp [CanEnter, h]⟩
    have hreadkey : ∀ h : ReadKeyFile_CanEnter c = true,
        ∃ s, s ≠ StateId.ReadIn ∧ CanEnter E s c = Except.ok true :=
      fun h => ⟨StateId.ReadKeyFile, by decide, by simp [CanEnter, h]⟩
    have hwadhead : ∀ h : WADHead_CanEnter c = true,
        ∃ s, s ≠ StateId.ReadIn ∧ CanEnter E s c = Except.ok true :=
      fun h => ⟨StateId.WADHead, by decide, by simp [CanEnter, h]⟩
    have hparse : ∀ h : ParseFormat_CanEnter c = true,
        ∃ s, s ≠ StateId.ReadIn ∧ CanEnter E s c = Except.ok true :=
      fun h => ⟨StateId.ParseFormat, by decide, by simp [CanEnter, h]⟩
    cases hfmt : c.format
    case Unknown =>
      exact hparse (by simp [ParseFormat_CanEnter, hfmt, hpos])
    case Empty => exact absurd hfmt i1
    case GPG =>
      have hfc : c.filter_count = 0 ∨ c.filter_count = 1 := by
        have : c.filter_count ≠ 2 := fun h => by
          have := i6 h; rw [hfmt] at this; cases this
        omega
      rcases hfc with hz | ho
      · cases hp : c.passphrase_session with
        | none => exact hsetpwd (by simp [SetPwdKey_CanEnter, hfmt, hp])
        | some d =>
          exact hdecrypt ((GPG_CanEnter_true_iff c).2
            ⟨by omega, hb, Or.inl ⟨Or.inl hfmt, by rw [hp]; rfl, hz⟩⟩)
      · exact hwrite ((WriteOut_CanEnter_true_iff c).2 ⟨hb, Or.inl ⟨Or.inl hfmt, ho⟩⟩)
    case GPGByKeyFile =>
      have hfc : c.filter_count = 0 ∨ c.filter_count = 1 := by
        have : c.filter_count ≠ 2 := fun h => by
          have := i6 h; rw [hfmt] at this; cases this
        omega
      rcases hfc with hz | ho
      · cases hk : c.key_file_session with
        | none => exact hreadkey (by simp [ReadKeyFile_CanEnter, hfmt, hk])
        | some d =>
          exact hdecrypt ((GPG_CanEnter_true_iff c).2
            ⟨by omega, hb, Or.inr (Or.inl ⟨hfmt, by rw [hk]; rfl, hz⟩)⟩)
      · exact hwrite ((WriteOut_CanEnter_true_iff c).2
          ⟨hb, Or.inl ⟨Or.inr (Or.inl hfmt), ho⟩⟩)
    case GPGOrNestedWad =>
      have hfc : c.filter_count = 0 ∨ c.filter_count = 1 := by
        have : c.filter_count ≠ 2 := fun h => by
          have := i6 h; rw [hfmt] at this; cases this
        omega
      rcases hfc with hz | ho
      · cases hp : c.passphrase_session with
        | none => exact hsetpwd (by simp [SetPwdKey_CanEnter, hfmt, hp])
        | some d =>
          exact hdecrypt ((GPG_CanEnter_true_iff c).2
            ⟨by omega, hb, Or.inl ⟨Or.inr hfmt, by rw [hp]; rfl, hz⟩⟩)
      · exact hparse (by simp [ParseFormat_CanEnter, hfmt, ho, hpos])
    case WAD =>
      cases hw : c.wad_head_finished with
      | false => exact hwadhead (by simp [WADHead_CanEnter, hfmt, hw, hlen])
      | true =>
        have hfc : c.filter_count = 0 ∨ c.filter_count = 1 := by
          have : c.filter_count ≠ 2 := fun h => by
            have := i6 h; rw [hfmt] at this; cases this
          omega
        rcases hfc with hz | ho
        · cases hk : c.key_file_session with
          | none => exact hreadkey (by simp [ReadKeyFile_CanEnter, hfmt, hk, hw])
          | some d =>
            exact hdecrypt ((GPG_CanEnter_true_iff c).2
              ⟨by omega, hb, Or.inr (Or.inr (Or.inl ⟨hfmt, hw, by rw [hk]; rfl, hz⟩))⟩)
        · exact hwrite ((WriteOut_CanEnter_true_iff c).2
            ⟨hb, Or.inl ⟨Or.inr (Or.inr hfmt), ho⟩⟩)
    case NestedWAD =>
      have hp := i4 hfmt
      cases hw : c.wad_head_finished with
      | false => exact hwadhead (by simp [WADHead_CanEnter, hfmt, hw, hlen])
      | true =>
        have hfc : c.filter_count = 0 ∨ c.filter_count = 1 ∨ c.filter_count = 2 := by omega
        rcases hfc with hz | ho | ht
        · exact hdecrypt ((GPG_CanEnter_true_iff c).2
            ⟨by omega, hb, Or.inr (Or.inr (Or.inr ⟨hfmt, hp, fun h => by omega⟩))⟩)
        · cases hk : c.key_file_session with
          | none => exact hreadkey (by simp [ReadKeyFile_CanEnter, hfmt, hk, hw])
          | some d =>
            exact hdecrypt ((GPG_CanEnter_true_iff c).2
              ⟨by omega, hb, Or.inr (Or.inr (Or.inr
                ⟨hfmt, hp, fun _ => ⟨hw, by rw [hk]; rfl⟩⟩))⟩)
        · exact hwrite ((WriteOut_CanEnter_true_iff c).2 ⟨hb, Or.inr ⟨hfmt, ht⟩⟩)
  refine ⟨?_, hsecond⟩
  cases hf : c.failed with
  | true => exact ⟨StateId.Fail, by simp [CanEnter, Fail_CanEnter, hf]⟩
  | false =>
    by_cases hb : c.buffer = []
    · exact ⟨StateId.ReadIn, by simp [CanEnter, ReadIn_CanEnter, hb]⟩
    · obtain ⟨s, _, hs⟩ := hsecond hb hf
      exact ⟨s, hs⟩

/-- The witness of `some_state_admissible`: after the first `ReadIn` of the
nested sample run the buffer is not empty and a state other than `ReadIn` is
admissible. -/
theorem some_state_admissible_witness :
    ∃ s, s ≠ StateId.ReadIn ∧
      CanEnter sampleCollaborators s
        (ReadIn_OnEnter sampleCollaborators
          (initialContext sampleNestedInput ⟨[], false⟩ sampleParams)) = Except.ok true :=
  (some_state_admissible sampleCollaborators
    (initialContext sampleNestedInput ⟨[], false⟩ sampleParams) _
    (initialContext_isInitial _ _ _)
    (Reachable.next Reachable.start ⟨StateId.ReadIn, rfl, rfl⟩)).2 (by decide) rfl

/-! ## The staged bytes of `ParseFormat` -/

/-- The last branch of `ParseFormat_OnEnter`: with a staged byte after two
filter passes or more it stops at its `assert(false)`. -/
theorem ParseFormat_OnEnter_assert (E : Collaborators σ) (c : DecryptionContext σ)
    (hne : c.pending_buffer ++ c.buffer ≠ []) (hfc : 2 ≤ c.filter_count) :
    ParseFormat_OnEnter E c = Except.error Fault.assertFailed := by
  have h1 : (c.filter_count == 1) = false := by
    rw [beq_eq_false_iff_ne]; omega
  have h0 : (c.filter_count == 0) = false := by
    rw [beq_eq_false_iff_ne]; omega
  have hlen : ¬ (c.pending_buffer ++ c.buffer).length < 1 := by
    have := List.length_pos.2 hne
    omega
  unfold ParseFormat_OnEnter
  simp only [h1, h0, Bool.false_eq_true, if_false, hlen, decide_False, Bool.false_and]

/-- C17: `ParseFormat` neither loses nor reorders bytes. In every context where
it is admissible, whenever its action returns, the staged bytes
`pending_buffer ++ buffer` are the same before and after; when it defers (fewer
staged bytes than the one or four required, input not at its end) they are all
in the pending buffer, the buffer is empty and the format is unchanged; when it
decides they are all in the buffer and the pending buffer is empty. The action
returns whenever at most one filter pass has run, and so in every admissible
context reachable from an initial context. -/
theorem ParseFormat_keeps_bytes (E : Collaborators σ) (c : DecryptionContext σ)
    (hadm : ParseFormat_CanEnter c = true) :
    (∀ c1, ParseFormat_OnEnter E c = Except.ok c1 →
      c1.pending_buffer ++ c1.buffer = c.pending_buffer ++ c.buffer ∧
      (((c.pending_buffer ++ c.buffer).length < (if c.filter_count = 1 then 4 else 1) ∧
          E.IsEOF c.input = false) →
        c1.pending_buffer = c.pending_buffer ++ c.buffer ∧ c1.buffer = [] ∧
        c1.format = c.format) ∧
      (¬ ((c.pending_buffer ++ c.buffer).length < (if c.filter_count = 1 then 4 else 1) ∧
          E.IsEOF c.input = false) →
        c1.buffer = c.pending_buffer ++ c.buffer ∧ c1.pending_buffer = [])) ∧
    (c.filter_count ≤ 1 → ∃ c1, ParseFormat_OnEnter E c = Except.ok c1) ∧
    (∀ c0, IsInitial c0 → Reachable E c0 c →
      ∃ c1, ParseFormat_OnEnter E c = Except.ok c1) := by
  have hne := ParseFormat_CanEnter_staged c hadm
  refine ⟨?_, ?_, ?_⟩
  · intro c1 h
    by_cases hfc : c.filter_count ≤ 1
    · obtain ⟨c2, h2, p⟩ := ParseFormat_OnEnter_keeps_of_le E c hadm hfc
      rw [h] at h2
      injection h2 with h2
      subst h2
      exact p
    · rw [ParseFormat_OnEnter_assert E c hne (by omega)] at h
      cases h
  · intro hfc
    obtain ⟨c1, h, _⟩ := ParseFormat_OnEnter_keeps_of_le E c hadm hfc
    exact ⟨c1, h⟩
  · intro c0 h0 hr
    obtain ⟨⟨_, i2, _, _⟩, _, _⟩ := reachable_inv E c0 c h0 hr
    have hfc : c.filter_count ≤ 1 := by
      cases hf : c.format <;> simp [ParseFormat_CanEnter, hf] at hadm
      · have := i2 hf; omega
      · omega
    obtain ⟨c1, h, _⟩ := ParseFormat_OnEnter_keeps_of_le E c hadm hfc
    exact ⟨c1, h⟩

/-- The witness of `ParseFormat_keeps_bytes`: the deferral of `ParseFormat`
with two staged bytes after one filter pass. -/
theorem ParseFormat_keeps_bytes_witness :
    ∃ c1, ParseFormat_OnEnter shortReaderCollaborators deferParseFormatContext =
        Except.ok c1 ∧
      c1.pending_buffer ++ c1.buffer = [0xC3, 1] ∧
      c1.pending_buffer = [0xC3, 1] ∧ c1.buffer = [] ∧
      c1.format = Format.GPGOrNestedWad := by
  obtain ⟨hall, hret, _⟩ :=
    ParseFormat_keeps_bytes shortReaderCollaborators deferParseFormatContext rfl
  obtain ⟨c1, h1⟩ := hret (by decide)
  obtain ⟨h2, h3, _⟩ := hall c1 h1
  obtain ⟨h4, h5, h6⟩ := h3 ⟨by decide, rfl⟩
  exact ⟨c1, h1, h2, h4, h5, h6⟩

/-! ## The pending buffer in the reachable contexts -/

/-- Only `ParseFormat` sets the format, only `WADHead` the WAD head flag, and
only these two touch the pending buffer. -/
theorem waiting_frame (E : Collaborators σ) (c c1 : DecryptionContext σ) (s : StateId)
    (h1 : s ≠ StateId.ParseFormat) (h2 : s ≠ StateId.WADHead)
    (hon : OnEnter E s c = Except.ok c1) :
    c1.format = c.format ∧ c1.wad_head_finished = c.wad_head_finished ∧
    c1.pending_buffer = c.pending_buffer := by
  refine ⟨?_, ?_, pending_frame E c c1 s h1 h2 hon⟩
  · cases s
    case ParseFormat => exact absurd rfl h1
    case WADHead => exact absurd rfl h2
    case Fail => simp only [OnEnter, Fail_OnEnter, Except.ok.injEq] at hon; subst hon; rfl
    case End => simp only [OnEnter, End_OnEnter, Except.ok.injEq] at hon; subst hon; rfl
    case WriteOut =>
      simp only [OnEnter, WriteOut_OnEnter, Except.ok.injEq] at hon; subst hon; rfl
    case Decrypt => exact (GPG_OnEnter_effect E c c1 hon).2.2.1
    case SetPassphraseSession =>
      simp only [OnEnter, SetPwdKey_OnEnter, Except.ok.injEq] at hon; subst hon; rfl
    case ReadKeyFile =>
      simp only [OnEnter, Except.ok.injEq] at hon
      subst hon
      unfold ReadKeyFile_OnEnter
      simp only
      split
      · rfl
      · split
        · rfl
        · split <;> rfl
    case ReadIn =>
      simp only [OnEnter, ReadIn_OnEnter, Except.ok.injEq] at hon; subst hon; rfl
  · cases s
    case ParseFormat => exact absurd rfl h1
    case WADHead => exact absurd rfl h2
    case Fail => simp only [OnEnter, Fail_OnEnter, Except.ok.injEq] at hon; subst hon; rfl
    case End => simp only [OnEnter, End_OnEnter, Except.ok.injEq] at hon; subst hon; rfl
    case WriteOut =>
      simp only [OnEnter, WriteOut_OnEnter, Except.ok.injEq] at hon; subst hon; rfl
    case Decrypt => exact (GPG_OnEnter_effect E c c1 hon).2.2.2.2.2.2.1
    case SetPassphraseSession =>
      simp only [OnEnter, SetPwdKey_OnEnter, Except.ok.injEq] at hon; subst hon; rfl
    case ReadKeyFile =>
      simp only [OnEnter, Except.ok.injEq] at hon
      subst hon
      unfold ReadKeyFile_OnEnter
      simp only
      split
      · rfl
      · split
        · rfl
        · split <;> rfl
    case ReadIn =>
      simp only [OnEnter, ReadIn_OnEnter, Except.ok.injEq] at hon; subst hon; rfl

/-- After `WADHead_OnEnter` the pending buffer is empty, unless the WAD head
flag is as it was. -/
theorem WADHead_OnEnter_waiting (E : Collaborators σ) (c c1 : DecryptionContext σ)
    (h : WADHead_OnEnter E c = Except.ok c1) :
    c1.pending_buffer = [] ∨ c1.wad_head_finished = c.wad_head_finished := by
  unfold WADHead_OnEnter at h
  simp only at h
  split at h
  · split at h
    · cases h
    · cases h; exact Or.inl rfl
  · split at h <;> (cases h; exact Or.inr rfl)
  · cases h; exact Or.inr rfl

/-- Every admissible handler keeps the pending buffer empty outside the
contexts where staged bytes may wait. -/
theorem waiting_step (E : Collaborators σ) (c c1 : DecryptionContext σ)
    (hsafe : SafeInv c) (hi : c.pending_buffer ≠ [] → StillWaiting c)
    (hs : Step E c c1) : c1.pending_buffer ≠ [] → StillWaiting c1 := by
  obtain ⟨s, hcan, hon⟩ := hs
  intro hne
  by_cases h1 : s = StateId.ParseFormat
  · subst h1
    simp only [CanEnter, Except.ok.injEq] at hcan
    simp only [OnEnter] at hon
    have hst := ParseFormat_CanEnter_staged c hcan
    rcases ParseFormat_OnEnter_cases E c c1 hon with ⟨d1, _, _⟩ | ⟨d1, _, _⟩
    · cases hf : c.format <;> simp [ParseFormat_CanEnter, hf] at hcan
      · have hz := hsafe.2.1 hf
        obtain ⟨b, rest, hb⟩ := List.exists_cons_of_ne_nil hst
        rw [ParseFormat_OnEnter_first E c b rest hz hb] at hon
        injection hon with hon
        subst hon
        exact absurd rfl hne
      · exact Or.inl (d1.trans hf)
    · exact absurd d1 hne
  · by_cases h2 : s = StateId.WADHead
    · subst h2
      simp only [CanEnter, Except.ok.injEq] at hcan
      simp only [OnEnter] at hon
      obtain ⟨_, e2, _⟩ := WADHead_OnEnter_frame E c c1 hon
      have hfin : c.wad_head_finished = false := by
        cases h : c.wad_head_finished
        · rfl
        · simp [WADHead_CanEnter, h] at hcan
      have hfmt : c.format = Format.WAD ∨ c.format = Format.NestedWAD := by
        cases hf : c.format <;> simp [WADHead_CanEnter, hf, hfin] at hcan <;> simp
      rcases WADHead_OnEnter_waiting E c c1 hon with h | h
      · exact absurd h hne
      · exact Or.inr ⟨by rw [e2]; exact hfmt, h.trans hfin⟩
    · obtain ⟨e1, e2, e3⟩ := waiting_frame E c c1 s h1 h2 hon
      have := hi (by rw [← e3]; exact hne)
      unfold StillWaiting at this ⊢
      rw [e1, e2]
      exact this

/-- A run that is still going stands at a context reachable by admissible
handlers. -/
theorem run_running_reachable (E : Collaborators σ) (n : Nat) :
    ∀ (c00 c0 c : DecryptionContext σ), Reachable E c00 c0 →
      run E n c0 = RunResult.running c → Reachable E c00 c := by
  induction n with
  | zero =>
    intro c00 c0 c hr h
    simp only [run, RunResult.running.injEq] at h
    subst h
    exact hr
  | succ k ih =>
    intro c00 c0 c hr h
    unfold run at h
    split at h
    · cases h
    · cases h
    · next s hn =>
      split at h
      · cases h
      · next c2 ho =>
        split at h
        · cases h
        · exact ih c00 c2 c (Reachable.next hr (nextState_step E c0 c2 s hn ho)) h

/-- C15, as amended: along every run from an initial context, that is along
every sequence of admissible handlers, a state other than `ParseFormat` and
`WADHead` leaves the pending buffer as it was before its step. The pending
buffer holds bytes only where staged bytes may wait, `ParseFormat` with its
second stage to decide or `WADHead` not having succeeded, whichever state was
entered last; it is empty whenever the format is `Unknown`, `GPG` or
`GPGByKeyFile`, or `WAD` or `NestedWAD` with the WAD head finished. -/
theorem pending_only_while_waiting (E : Collaborators σ) (c0 c : DecryptionContext σ)
    (h0 : IsInitial c0) (hr : Reachable E c0 c) :
    (c.pending_buffer ≠ [] → StillWaiting c) ∧
    ((c.format = Format.Unknown ∨ c.format = Format.GPG ∨ c.format = Format.GPGByKeyFile ∨
        ((c.format = Format.WAD ∨ c.format = Format.NestedWAD) ∧
          c.wad_head_finished = true)) → c.pending_buffer = []) ∧
    (∀ (s : StateId) (c1 : DecryptionContext σ), s ≠ StateId.ParseFormat →
      s ≠ StateId.WADHead → OnEnter E s c = Except.ok c1 →
      c1.pending_buffer = c.pending_buffer) := by
  have hwait : c.pending_buffer ≠ [] → StillWaiting c := by
    induction hr with
    | start => intro hne; exact absurd h0.2.2.2.1 hne
    | next hr1 hs ih =>
      exact waiting_step E _ _ (reachable_inv E c0 _ h0 hr1).1 ih hs
  refine ⟨hwait, ?_, fun s c1 h1 h2 hon => pending_frame E c c1 s h1 h2 hon⟩
  intro hfmt
  by_contra hne
  rcases hwait hne with hw | ⟨hw, hfin⟩
  · rcases hfmt with h | h | h | ⟨h | h, _⟩ <;> rw [hw] at h <;> cases h
  · rcases hfmt with h | h | h | ⟨_, h⟩
    · rcases hw with hw | hw <;> rw [hw] at h <;> cases h
    · rcases hw with hw | hw <;> rw [hw] at h <;> cases h
    · rcases hw with hw | hw <;> rw [hw] at h <;> cases h
    · rw [hfin] at h; cases h

/-- The witness of `pending_only_while_waiting`: on the seventeen-byte sample
input `ParseFormat` defers after the first pass; a `ReadIn` that follows leaves
the two staged bytes in the pending buffer, in format `GPGOrNestedWad`. -/
theorem pending_only_while_waiting_witness :
    (ReadIn_OnEnter shortReaderCollaborators (stage deferParseFormatContext)).pending_buffer =
      [0xC3, 1] ∧
    StillWaiting (ReadIn_OnEnter shortReaderCollaborators (stage deferParseFormatContext)) :=
  ⟨rfl,
   (pending_only_while_waiting shortReaderCollaborators
    (initialContext sampleTagInput ⟨[], false⟩ sampleParams)
    (ReadIn_OnEnter shortReaderCollaborators (stage deferParseFormatContext))
    (initialContext_isInitial _ _ _)
    (Reachable.next
      (Reachable.next
        (run_running_reachable shortReaderCollaborators 4 _ _ deferParseFormatContext
          Reachable.start rfl)
        ⟨StateId.ParseFormat, rfl, rfl⟩)
      ⟨StateId.ReadIn, rfl, rfl⟩)).1 (by decide)⟩

end EncryptPad
